import Mathlib

/-!
Verification development for the agent-task-manager service.

The Go service stores rows of the `tasks` table (models/task.go) in
PostgreSQL and mutates them through gin handlers
(handlers/tasks/{create,get,complete,cancel,fail}.go) and a periodic
cleanup scheduler (scheduler/cleanup.go).  We embed the store as a list
of task records (list order = insertion order) and each handler as a
pure function from the store and the request data to the committed
store paired with the HTTP outcome.  A handler that rolls back its
transaction returns the store unchanged together with the error.
-/

namespace AgentTaskManager

/-- Status enumeration from models/task.go (TaskStatus constants). -/
inductive TaskStatus where
  | submitted
  | working
  | waiting
  | completed
  | failed
  | canceled
  | rejected
  | inputRequired
  | unknown
deriving DecidableEq, Repr

/-- Statuses treated as active by the cascade and cache queries:
submitted, working, waiting. -/
def isActive : TaskStatus → Bool
  | .submitted => true
  | .working => true
  | .waiting => true
  | _ => false

/-- Credentials blob: mapping of service name to a mapping of variable
name to value (models/task.go stores it as an opaque jsonb value). -/
abbrev Creds : Type := List (String × List (String × String))

/-- Task record, mirroring the fields of models.Task.  Identifiers and
timestamps are embedded as naturals; `createdAt` is the creation
timestamp, `id` the primary key (a random UUID in the service, hence an
arbitrary number here, ordered the way PostgreSQL orders the column). -/
structure Task where
  id : Nat
  createdAt : Nat
  deleteAt : Option Nat
  createdBy : String
  assignee : String
  description : String
  rootTaskId : Option Nat
  parentTaskId : Option Nat
  result : String
  credentials : Creds
  status : TaskStatus
deriving DecidableEq, Repr

/-- The tasks table: rows in insertion order. -/
abbrev Store : Type := List Task

/-- Error taxonomy of the handlers: 404, 403, 400 and 5xx responses. -/
inductive HErr where
  | notFound
  | forbidden
  | validation
  | infra
deriving DecidableEq, Repr

/-- Lookup by primary key: tx.First(&task, "id = ?", taskID). -/
def findTask (S : Store) (taskID : Nat) : Option Task :=
  S.find? (fun t => t.id == taskID)

/-- tx.Save(&task): replace the row with the same primary key. -/
def saveTask (S : Store) (t : Task) : Store :=
  S.map (fun x => if x.id = t.id then t else x)

/-- db.Create(&task): insert a fresh row. -/
def insertTask (S : Store) (t : Task) : Store :=
  S ++ [t]

/-- tx.Model(&Task{}).Where("id = ?", id).Update("status", st). -/
def updateStatus (S : Store) (taskID : Nat) (st : TaskStatus) : Store :=
  S.map (fun x => if x.id = taskID then { x with status := st } else x)

/-- tx.Where("parent_task_id = ? AND status IN (submitted, working,
waiting)", parentID).Find(&subtasks) from complete.go. -/
def activeChildren (S : Store) (parentID : Nat) : List Task :=
  S.filter (fun t => decide (t.parentTaskId = some parentID) && isActive t.status)

/-- tx.Model(&Task{}).Where("id IN ?", subtaskIDs).Update("status",
StatusCanceled). -/
def setCanceledByIds (S : Store) (ids : List Nat) : Store :=
  S.map (fun t => if t.id ∈ ids then { t with status := .canceled } else t)

/-- cancelSubtasksRecursive from handlers/tasks/complete.go: fetch the
active direct subtasks, set them all to canceled, then recurse into
each of them.  The Go function recurses without an explicit bound; the
`fuel` argument only serves Lean's termination checker and every caller
passes a fuel that is at least the number of active rows, which the
recursion never exhausts (each level of recursion cancels at least one
active row first). -/
def cancelSubtasksRecursive (fuel : Nat) (S : Store) (parentID : Nat) : Store :=
  match fuel with
  | 0 => S
  | fuel + 1 =>
    let subs := activeChildren S parentID
    if subs.isEmpty then S
    else
      let S1 := setCanceledByIds S (subs.map (·.id))
      subs.foldl (fun st sub => cancelSubtasksRecursive fuel st sub.id) S1

/-- Modelled from the spec: handlers/tasks/cancel.go calls
CancelSubtasksRecursive, whose definition is not among the provided
source files.  Section 4.1 of the specification states that Cancel has
the same descendant-cascade side effect as Complete, so it is modelled
as the cascade of complete.go. -/
def CancelSubtasksRecursive (fuel : Nat) (S : Store) (parentID : Nat) : Store :=
  cancelSubtasksRecursive fuel S parentID

/-- tx.Model(&Task{}).Where("parent_task_id = ?", pid).Count. -/
def countSiblings (S : Store) (pid : Nat) : Nat :=
  S.countP (fun x => decide (x.parentTaskId = some pid))

/-- tx.Model(&Task{}).Where("parent_task_id = ? AND status IN
(completed, canceled)", pid).Count. -/
def countDoneSiblings (S : Store) (pid : Nat) : Nat :=
  S.countP (fun x =>
    decide (x.parentTaskId = some pid) &&
    (decide (x.status = TaskStatus.completed) || decide (x.status = TaskStatus.canceled)))

/-- The rollup guard of complete.go and cancel.go: totalCount > 0 and
totalCount == completedOrCanceledCount over the tasks sharing the
parent. -/
def rollupCond (S : Store) (pid : Nat) : Prop :=
  0 < countSiblings S pid ∧ countSiblings S pid = countDoneSiblings S pid

instance (S : Store) (pid : Nat) : Decidable (rollupCond S pid) := by
  unfold rollupCond
  infer_instance

/-- Request body of POST /task/:id/complete (types.go). -/
structure CompleteTaskRequest where
  description : String
  deleteAt : Option Nat
deriving DecidableEq

/-- The row update CompleteTaskHandler applies before saving: status
completed, result from the request, delete_at only when supplied. -/
def completedTask (t : Task) (req : CompleteTaskRequest) : Task :=
  { t with
    status := .completed
    result := req.description
    deleteAt := match req.deleteAt with | some d => some d | none => t.deleteAt }

/-- The row update CancelTaskHandler applies before saving. -/
def canceledTask (t : Task) : Task :=
  { t with status := .canceled }

/-- CompleteTaskHandler from handlers/tasks/complete.go: only the
assignee may complete, only from `working`; sets result and optionally
delete_at, cancels active subtasks recursively, and rolls the parent up
to `submitted` when every task sharing the parent is completed or
canceled. -/
def CompleteTaskHandler (S : Store) (userID : String) (taskID : Nat)
    (req : CompleteTaskRequest) : Store × Except HErr Task :=
  match findTask S taskID with
  | none => (S, .error .notFound)
  | some task =>
    if task.assignee ≠ userID then (S, .error .forbidden)
    else if task.status ≠ .working then (S, .error .validation)
    else
      let task' : Task := completedTask task req
      let S1 := saveTask S task'
      let S2 := cancelSubtasksRecursive S1.length S1 task.id
      match task.parentTaskId with
      | none => (S2, .ok task')
      | some pid =>
        if rollupCond S2 pid then (updateStatus S2 pid .submitted, .ok task')
        else (S2, .ok task')

/-- CancelTaskHandler from handlers/tasks/cancel.go: assignee or creator
may cancel; rejected with a 400 when the status is completed, canceled
or failed; otherwise sets canceled, cascades into subtasks and applies
the same parent rollup as complete (re-reading the parent row, whose
absence aborts and rolls back the transaction). -/
def CancelTaskHandler (S : Store) (userID : String) (taskID : Nat) :
    Store × Except HErr Task :=
  match findTask S taskID with
  | none => (S, .error .notFound)
  | some task =>
    if task.assignee ≠ userID ∧ task.createdBy ≠ userID then (S, .error .forbidden)
    else if task.status = .completed ∨ task.status = .canceled ∨ task.status = .failed then
      (S, .error .validation)
    else
      let task' : Task := canceledTask task
      let S1 := saveTask S task'
      let S2 := CancelSubtasksRecursive S1.length S1 task.id
      match task.parentTaskId with
      | none => (S2, .ok task')
      | some pid =>
        if rollupCond S2 pid then
          match findTask S2 pid with
          | some _ => (updateStatus S2 pid .submitted, .ok task')
          | none => (S, .error .infra)
        else (S2, .ok task')

/-- Request body of POST /tasks/:id/fail (types.go). -/
structure FailTaskRequest where
  reason : String
deriving DecidableEq

/-- The row update FailTaskHandler applies before saving: status failed
and a tagged failure reason. -/
def failedTask (t : Task) (req : FailTaskRequest) : Task :=
  { t with status := .failed, result := "FAILURE REASON: " ++ req.reason }

/-- FailTaskHandler from handlers/tasks/fail.go: only the assignee, only
from `working`; sets failed with a tagged reason and touches no other
row (the parent deliberately stays waiting). -/
def FailTaskHandler (S : Store) (userID : String) (taskID : Nat)
    (req : FailTaskRequest) : Store × Except HErr Task :=
  match findTask S taskID with
  | none => (S, .error .notFound)
  | some task =>
    if task.assignee ≠ userID then (S, .error .forbidden)
    else if task.status ≠ .working then (S, .error .validation)
    else
      let task' : Task := failedTask task req
      (saveTask S task', .ok task')

/-- GetTaskHandler from handlers/tasks/get.go: claim the next task.  The
GORM query First(...) on the filtered set orders by the primary key, so
the row with the least id among the actor's submitted tasks wins; it is
locked, set to `working` and saved in the same transaction. -/
def minById (c : Task) (l : List Task) : Task :=
  l.foldl (fun acc t => if t.id < acc.id then t else acc) c

/-- GetTaskHandler body; see minById for the selection order. -/
def GetTaskHandler (S : Store) (userID : String) : Store × Except HErr Task :=
  match S.filter (fun t => t.assignee == userID && decide (t.status = TaskStatus.submitted)) with
  | [] => (S, .error .notFound)
  | c :: rest =>
    let task := minById c rest
    let task' : Task := { task with status := .working }
    (saveTask S task', .ok task')

/-- Request body of POST /task (types.go). -/
structure CreateTaskRequest where
  description : String
  assignee : String
  parentTaskId : Option Nat
  deleteAt : Option Nat
  credentials : Option Creds
deriving DecidableEq

/-- Shape check done inline in CreateTaskHandler: every service name,
variable name and value must be non-empty and every service must have at
least one variable. -/
def credsOk (m : Creds) : Bool :=
  m.all (fun sv =>
    (!(sv.1 == "")) && (!sv.2.isEmpty) &&
    sv.2.all (fun kv => (!(kv.1 == "")) && (!(kv.2 == ""))))

/-- CreateTaskHandler rejects the request iff credentials are present,
non-empty and fail the shape check. -/
def credentialsInvalid (req : CreateTaskRequest) : Bool :=
  match req.credentials with
  | none => false
  | some m => (!m.isEmpty) && (!credsOk m)

/-- AddDate(0, 3, 0) default retention from create.go, embedded as a
fixed span (calendar arithmetic does not matter to any claim). -/
def threeMonths : Nat := 7776000

/-- isParentStatusAllowed from handlers/tasks/validation.go. -/
def isParentStatusAllowed (status : TaskStatus) : Bool :=
  [TaskStatus.waiting, TaskStatus.working, TaskStatus.submitted].any
    (fun allowed => decide (status = allowed))

/-- CreateTaskHandler from handlers/tasks/create.go.  `newID` is the
UUID generated for the row and `now` the current time.  A task with a
parent requires the parent to exist in an allowed status, inherits the
parent's root_task_id (or the parent's id when that is null) and moves
the parent to waiting after the insert; a task without a parent is
inserted and then updated so that root_task_id equals its own id. -/
def CreateTaskHandler (S : Store) (userID : String) (req : CreateTaskRequest)
    (newID : Nat) (now : Nat) : Store × Except HErr Task :=
  if credentialsInvalid req then (S, .error .validation)
  else
    let credentials : Creds :=
      match req.credentials with
      | none => []
      | some m => if m.isEmpty then [] else m
    let deleteAt : Option Nat :=
      match req.deleteAt with
      | some d => some d
      | none => some (now + threeMonths)
    let base : Task :=
      { id := newID
        createdAt := now
        deleteAt := deleteAt
        createdBy := userID
        assignee := req.assignee
        description := req.description
        rootTaskId := none
        parentTaskId := req.parentTaskId
        result := ""
        credentials := credentials
        status := .submitted }
    match req.parentTaskId with
    | some pid =>
      match findTask S pid with
      | none => (S, .error .validation)
      | some parentTask =>
        if !isParentStatusAllowed parentTask.status then (S, .error .validation)
        else
          let rootId : Option Nat :=
            match parentTask.rootTaskId with
            | some r => some r
            | none => some parentTask.id
          let t : Task := { base with rootTaskId := rootId }
          (updateStatus (insertTask S t) pid .waiting, .ok t)
    | none =>
      let t' : Task := { base with rootTaskId := some newID }
      (saveTask (insertTask S base) t', .ok t')

/-- TaskWithoutCredentials from handlers/tasks/cancel.go: the projection
returned by GET /root-task/:id/tasks. -/
structure TaskWithoutCredentials where
  id : Nat
  createdAt : Nat
  deleteAt : Option Nat
  createdBy : String
  assignee : String
  description : String
  rootTaskId : Option Nat
  parentTaskId : Option Nat
  result : String
  status : TaskStatus
deriving DecidableEq, Repr

/-- The per-row conversion loop of GetRootTasksHandler. -/
def stripCredentials (t : Task) : TaskWithoutCredentials :=
  { id := t.id
    createdAt := t.createdAt
    deleteAt := t.deleteAt
    createdBy := t.createdBy
    assignee := t.assignee
    description := t.description
    rootTaskId := t.rootTaskId
    parentTaskId := t.parentTaskId
    result := t.result
    status := t.status }

/-- GetRootTasksHandler from handlers/tasks/cancel.go: the root task
must exist and be created by the caller; returns every task with that
root_task_id, stripped of credentials.  Read-only. -/
def GetRootTasksHandler (S : Store) (userID : String) (rootTaskID : Nat) :
    Except HErr (List TaskWithoutCredentials) :=
  match findTask S rootTaskID with
  | none => .error .notFound
  | some rootTask =>
    if rootTask.createdBy ≠ userID then .error .forbidden
    else .ok ((S.filter (fun t => t.rootTaskId == some rootTaskID)).map stripCredentials)

/-- delete_at IS NOT NULL AND delete_at < now. -/
def isExpired (now : Nat) (t : Task) : Bool :=
  match t.deleteAt with
  | none => false
  | some d => decide (d < now)

/-- A reference resolves when it is null or some remaining row carries
the referenced id. -/
def refIntact (ids : List Nat) : Option Nat → Bool
  | none => true
  | some p => ids.contains p

/-- Storage-level ON DELETE CASCADE closure: models/task.go declares
foreign keys on parent_task_id and root_task_id with
constraint:OnDelete:CASCADE (created by AutoMigrate), so deleting rows
also deletes, transitively, every row whose parent or root reference no
longer resolves.  Iterating the one-step filter Store-length many times
reaches the fixpoint. -/
def dropOrphans : Nat → Store → Store
  | 0, S => S
  | fuel + 1, S =>
    let ids := S.map (·.id)
    let S' := S.filter (fun t => refIntact ids t.parentTaskId && refIntact ids t.rootTaskId)
    if S'.length = S.length then S else dropOrphans fuel S'

/-- cleanupExpiredTasks from scheduler/cleanup.go: compute now once,
count the rows with non-null delete_at earlier than now; when none, do
nothing; otherwise delete those rows in one transaction, upon which the
CASCADE foreign keys also remove every row of the deleted subtrees. -/
def cleanupExpiredTasks (S : Store) (now : Nat) : Store :=
  let count := S.countP (isExpired now)
  if count = 0 then S
  else dropOrphans S.length (S.filter (fun t => !isExpired now t))

/-! ## Statement vocabulary -/

/-- Primary keys are unique (the id column is the primary key). -/
def NodupIds (S : Store) : Prop :=
  (S.map (·.id)).Nodup

instance (S : Store) : Decidable (NodupIds S) := by
  unfold NodupIds
  infer_instance

/-- Boolean well-formedness of a store: every non-null parent reference
resolves to a row that was created strictly earlier.  This holds in the
service because a child can only be created by referencing an already
committed parent row. -/
def wellFormedB (S : Store) : Bool :=
  S.all (fun t =>
    match t.parentTaskId with
    | none => true
    | some p => S.any (fun q => q.id == p && decide (q.createdAt < t.createdAt)))

/-- Every row in S whose id is x is canceled. -/
def cancAll (S : Store) (x : Nat) : Prop :=
  ∀ t ∈ S, t.id = x → t.status = TaskStatus.canceled

/-- Some row in S with id x is in an active status. -/
def activeIn (S : Store) (x : Nat) : Prop :=
  ∃ t, t ∈ S ∧ t.id = x ∧ isActive t.status = true

/-- Some row in S with id x is canceled. -/
def cancIn (S : Store) (x : Nat) : Prop :=
  ∃ t, t ∈ S ∧ t.id = x ∧ t.status = TaskStatus.canceled

/-- No row in S with id pid is active. -/
def pidInactive (S : Store) (pid : Nat) : Prop :=
  ∀ t ∈ S, t.id = pid → isActive t.status = false

/-- Number of active rows. -/
def countActive (S : Store) : Nat :=
  S.countP (fun t => isActive t.status)

/-- x is reachable from pid through parent edges, every task on the way
(including the endpoint) being in an active status. -/
inductive ActiveChain (S : Store) : Nat → Nat → Prop where
  | base (t : Task) (pid : Nat) :
      t ∈ S → t.parentTaskId = some pid → isActive t.status = true →
      ActiveChain S pid t.id
  | cons (t : Task) (pid x : Nat) :
      t ∈ S → t.parentTaskId = some pid → isActive t.status = true →
      ActiveChain S t.id x → ActiveChain S pid x

/-- x is a descendant of pid through parent edges (no condition on
statuses). -/
inductive Desc (S : Store) : Nat → Nat → Prop where
  | base (t : Task) (pid : Nat) :
      t ∈ S → t.parentTaskId = some pid → Desc S pid t.id
  | cons (t : Task) (pid x : Nat) :
      t ∈ S → t.parentTaskId = some pid → Desc S t.id x → Desc S pid x

/-- d is an id reachable from task t by following parent_task_id or
root_task_id references, stepping through rows of S. -/
inductive RefReach (S : Store) : Task → Nat → Prop where
  | parent (t : Task) (p : Nat) : t.parentTaskId = some p → RefReach S t p
  | root (t : Task) (r : Nat) : t.rootTaskId = some r → RefReach S t r
  | step (t q : Task) (x : Nat) : RefReach S t q.id → q ∈ S → RefReach S q x →
      RefReach S t x

/-- Pointwise relation between a store and an evolved version of it in
which some active rows have been canceled and nothing else changed. -/
def cancelOnly (s r : Task) : Prop :=
  r = s ∨ (isActive s.status = true ∧ r = { s with status := TaskStatus.canceled })

/-- A store evolves to another by canceling some of its active rows. -/
def Evolve (S R : Store) : Prop :=
  List.Forall₂ cancelOnly S R

/-- Propositional form of wellFormedB: every parent reference resolves
to a strictly older row. -/
def WF (S : Store) : Prop :=
  ∀ t ∈ S, ∀ p, t.parentTaskId = some p →
    ∃ q, q ∈ S ∧ q.id = p ∧ q.createdAt < t.createdAt

/-- Pointwise skeleton equality: ids, parent references and creation
times agree position by position (statuses and payloads may differ). -/
def SameSkel (A B : Store) : Prop :=
  List.Forall₂
    (fun a b => b.id = a.id ∧ b.parentTaskId = a.parentTaskId ∧ b.createdAt = a.createdAt)
    A B

/-! ## Concrete example data for the witnesses and counterexamples -/

/-- Row builder for the concrete example stores. -/
def mkTask (i ca : Nat) (da : Option Nat) (creator asg : String)
    (root par : Option Nat) (st : TaskStatus) : Task :=
  { id := i, createdAt := ca, deleteAt := da, createdBy := creator, assignee := asg,
    description := "d", rootTaskId := root, parentTaskId := par, result := "",
    credentials := [], status := st }

/-- Working root, failed child, submitted grandchild: the grandchild is
an active descendant hidden behind a non-active child. -/
def c1xS : Store :=
  [mkTask 1 0 none "c" "u" (some 1) none .working,
   mkTask 2 1 none "c" "u" (some 1) (some 1) .failed,
   mkTask 3 2 none "c" "u" (some 1) (some 2) .submitted]

/-- Working root with one submitted child. -/
def c1wS : Store :=
  [mkTask 1 0 none "c" "u" (some 1) none .working,
   mkTask 2 1 none "c" "v" (some 1) (some 1) .submitted]

/-- Request used by the complete examples. -/
def c1req : CompleteTaskRequest := { description := "r", deleteAt := none }

/-- Two submitted tasks for actor u: the earlier-created row has the
larger primary key. -/
def c2xS : Store :=
  [mkTask 5 0 none "c" "u" (some 5) none .submitted,
   mkTask 3 1 none "c" "u" (some 3) none .submitted]

/-- Parent in waiting with three children: one completed, two working. -/
def c3S : Store :=
  [mkTask 10 0 none "c" "w" (some 10) none .waiting,
   mkTask 11 1 none "c" "u1" (some 10) (some 10) .completed,
   mkTask 12 2 none "c" "u" (some 10) (some 10) .working,
   mkTask 13 3 none "c" "u2" (some 10) (some 10) .working]

/-- Parent in waiting with three children, two of them terminal and the
third working. -/
def c3S2 : Store :=
  [mkTask 10 0 none "c" "w" (some 10) none .waiting,
   mkTask 11 1 none "c" "u1" (some 10) (some 10) .completed,
   mkTask 12 2 none "c" "u" (some 10) (some 10) .canceled,
   mkTask 13 3 none "c" "u2" (some 10) (some 10) .working]

/-- A completed task with assignee a and creator b. -/
def c4xS : Store := [mkTask 1 0 none "b" "a" (some 1) none .completed]

/-- A working parent candidate. -/
def c5S : Store := [mkTask 1 0 none "c" "u" (some 1) none .working]

/-- Create request referencing the parent with id 1. -/
def c5req : CreateTaskRequest :=
  { description := "d", assignee := "v", parentTaskId := some 1, deleteAt := none,
    credentials := none }

/-- The child row created by c5req at id 99 and time 7. -/
def c5New : Task :=
  { id := 99, createdAt := 7, deleteAt := some (7 + threeMonths), createdBy := "c",
    assignee := "v", description := "d", rootTaskId := some 1, parentTaskId := some 1,
    result := "", credentials := [], status := .submitted }

/-- A waiting parent and its working child. -/
def c6S : Store :=
  [mkTask 2 0 none "c" "w" (some 2) none .waiting,
   mkTask 1 1 none "c" "u" (some 2) (some 2) .working]

/-- Fail request used by the examples. -/
def c6req : FailTaskRequest := { reason := "x" }

/-- An expired root with a live child: the child's delete_at is in the
future but the storage cascade removes it with its parent. -/
def c7xS : Store :=
  [mkTask 1 0 (some 10) "c" "u" (some 1) none .completed,
   mkTask 2 1 (some 999) "c" "u" (some 1) (some 1) .submitted]

/-- A single live root task. -/
def c7wS : Store := [mkTask 1 0 (some 999) "c" "u" (some 1) none .submitted]

/-- Create request without a parent. -/
def c8req : CreateTaskRequest :=
  { description := "d", assignee := "v", parentTaskId := none, deleteAt := none,
    credentials := none }

/-- The root task c8req creates (id 5 at time 0). -/
def c8t : Task :=
  { id := 5, createdAt := 0, deleteAt := some (0 + threeMonths), createdBy := "c",
    assignee := "v", description := "d", rootTaskId := some 5, parentTaskId := none,
    result := "", credentials := [], status := .submitted }

/-- Stores that differ exactly in one credentials blob. -/
def c10S1 : Store :=
  [{ mkTask 1 0 none "c" "u" (some 1) none .working with
      credentials := [("svc", [("K", "V")])] }]

/-- The same store with an empty credentials blob. -/
def c10S2 : Store := [mkTask 1 0 none "c" "u" (some 1) none .working]

end AgentTaskManager

namespace AgentTaskManager

/-! ## Generic store lemmas -/

theorem id_inj_of_nodup {S : Store} (hnd : NodupIds S) {s t : Task}
    (hs : s ∈ S) (ht : t ∈ S) (h : s.id = t.id) : s = t :=
  List.inj_on_of_nodup_map hnd hs ht h

theorem findTask_mem_id {S : Store} {x : Nat} {t : Task}
    (h : findTask S x = some t) : t ∈ S ∧ t.id = x := by
  unfold findTask at h
  refine ⟨List.mem_of_find?_eq_some h, ?_⟩
  have := List.find?_some h
  simpa using this

theorem findTask_eq_some {S : Store} (hnd : NodupIds S) {t : Task}
    (ht : t ∈ S) : findTask S t.id = some t := by
  unfold findTask
  induction S with
  | nil => cases ht
  | cons a S ih =>
    rcases List.mem_cons.1 ht with h | h
    · subst h
      simp [List.find?_cons]
    · by_cases hid : a.id = t.id
      · have : a = t := by
          refine id_inj_of_nodup hnd ?_ ?_ hid
          · exact List.mem_cons_self a S
          · exact ht
        subst this
        simp [List.find?_cons]
      · have hnd' : NodupIds S := by
          have := hnd
          unfold NodupIds at this ⊢
          simpa using (List.nodup_cons.1 (by simpa using this)).2
        have hbeq : (a.id == t.id) = false := by
          simpa using hid
        simp [List.find?_cons, hbeq]
        exact ih hnd' h

theorem mem_activeChildren {S : Store} {pid : Nat} {t : Task} :
    t ∈ activeChildren S pid ↔
      t ∈ S ∧ t.parentTaskId = some pid ∧ isActive t.status = true := by
  unfold activeChildren
  simp [List.mem_filter, Bool.and_eq_true, decide_eq_true_eq, and_assoc]

theorem active_mem_countActive_pos {S : Store} {t : Task}
    (ht : t ∈ S) (ha : isActive t.status = true) : 0 < countActive S := by
  unfold countActive
  exact List.countP_pos_iff.2 ⟨t, ht, by simpa using ha⟩

/-! ## cancelOnly and Evolve -/

theorem cancelOnly_refl (s : Task) : cancelOnly s s := Or.inl rfl

theorem cancelOnly_id {s r : Task} (h : cancelOnly s r) : r.id = s.id := by
  rcases h with h | ⟨-, h⟩ <;> simp [h]

theorem cancelOnly_parent {s r : Task} (h : cancelOnly s r) :
    r.parentTaskId = s.parentTaskId := by
  rcases h with h | ⟨-, h⟩ <;> simp [h]

theorem cancelOnly_createdAt {s r : Task} (h : cancelOnly s r) :
    r.createdAt = s.createdAt := by
  rcases h with h | ⟨-, h⟩ <;> simp [h]

theorem cancelOnly_status {s r : Task} (h : cancelOnly s r) :
    r.status = s.status ∨ (isActive s.status = true ∧ r.status = TaskStatus.canceled) := by
  rcases h with h | ⟨ha, h⟩
  · exact Or.inl (by simp [h])
  · exact Or.inr ⟨ha, by simp [h]⟩

theorem cancelOnly_canceled {s r : Task} (h : cancelOnly s r)
    (hs : s.status = TaskStatus.canceled) : r.status = TaskStatus.canceled := by
  rcases cancelOnly_status h with h' | ⟨-, h'⟩
  · rw [h', hs]
  · exact h'

theorem cancelOnly_active {s r : Task} (h : cancelOnly s r)
    (hr : isActive r.status = true) : r = s := by
  rcases h with h | ⟨-, h⟩
  · exact h
  · rw [h] at hr
    simp [isActive] at hr

theorem cancelOnly_inactive {s r : Task} (h : cancelOnly s r)
    (hs : isActive s.status = false) : r = s := by
  rcases h with h | ⟨ha, -⟩
  · exact h
  · rw [ha] at hs
    cases hs

theorem cancelOnly_trans {s r u : Task} (h1 : cancelOnly s r) (h2 : cancelOnly r u) :
    cancelOnly s u := by
  rcases h1 with h1 | ⟨ha1, h1⟩
  · subst h1
    exact h2
  · rcases h2 with h2 | ⟨ha2, -⟩
    · subst h2
      exact Or.inr ⟨ha1, h1⟩
    · rw [h1] at ha2
      simp [isActive] at ha2

theorem Evolve.refl (S : Store) : Evolve S S := by
  unfold Evolve
  induction S with
  | nil => exact List.Forall₂.nil
  | cons a S ih => exact List.Forall₂.cons (cancelOnly_refl a) ih

theorem Evolve.trans {A B C : Store} (h1 : Evolve A B) (h2 : Evolve B C) :
    Evolve A C := by
  unfold Evolve at *
  induction h1 generalizing C with
  | nil =>
    cases h2
    exact List.Forall₂.nil
  | cons hab h1' ih =>
    cases h2 with
    | cons hbc h2' => exact List.Forall₂.cons (cancelOnly_trans hab hbc) (ih h2')

theorem Evolve.map_id {A B : Store} (h : Evolve A B) :
    B.map (·.id) = A.map (·.id) := by
  unfold Evolve at h
  induction h with
  | nil => rfl
  | cons hab h ih => simp [cancelOnly_id hab, ih]

theorem Evolve.nodup {A B : Store} (h : Evolve A B) (hnd : NodupIds A) :
    NodupIds B := by
  unfold NodupIds at *
  rw [Evolve.map_id h]
  exact hnd

theorem Evolve.mem_right {A B : Store} (h : Evolve A B) {r : Task} (hr : r ∈ B) :
    ∃ s, s ∈ A ∧ cancelOnly s r := by
  unfold Evolve at h
  induction h with
  | nil => cases hr
  | cons hab h ih =>
    rcases List.mem_cons.1 hr with h' | h'
    · subst h'
      exact ⟨_, List.mem_cons_self _ _, hab⟩
    · rcases ih h' with ⟨s, hs, hso⟩
      exact ⟨s, List.mem_cons_of_mem _ hs, hso⟩

theorem Evolve.mem_left {A B : Store} (h : Evolve A B) {s : Task} (hs : s ∈ A) :
    ∃ r, r ∈ B ∧ cancelOnly s r := by
  unfold Evolve at h
  induction h with
  | nil => cases hs
  | cons hab h ih =>
    rcases List.mem_cons.1 hs with h' | h'
    · subst h'
      exact ⟨_, List.mem_cons_self _ _, hab⟩
    · rcases ih h' with ⟨r, hr, hro⟩
      exact ⟨r, List.mem_cons_of_mem _ hr, hro⟩

theorem Evolve.cancAll {A B : Store} (h : Evolve A B) {x : Nat}
    (hc : cancAll A x) : cancAll B x := by
  intro r hr hid
  rcases Evolve.mem_right h hr with ⟨s, hs, hso⟩
  have hsid : s.id = x := by rw [← cancelOnly_id hso, hid]
  exact cancelOnly_canceled hso (hc s hs hsid)

theorem Evolve.pidInactive {A B : Store} (h : Evolve A B) {pid : Nat}
    (hp : pidInactive A pid) : pidInactive B pid := by
  intro r hr hid
  rcases Evolve.mem_right h hr with ⟨s, hs, hso⟩
  have hsid : s.id = pid := by rw [← cancelOnly_id hso, hid]
  have := hp s hs hsid
  have hrs := cancelOnly_inactive hso this
  rw [hrs]
  exact this

theorem Evolve.chain_lift {A B : Store} (h : Evolve A B) {p x : Nat}
    (hc : ActiveChain B p x) : ActiveChain A p x := by
  induction hc with
  | base t pid hmem hpar hact =>
    rcases Evolve.mem_right h hmem with ⟨s, hs, hso⟩
    have hts : t = s := cancelOnly_active hso hact
    subst hts
    exact ActiveChain.base t pid hs hpar hact
  | cons t pid x hmem hpar hact hsub ih =>
    rcases Evolve.mem_right h hmem with ⟨s, hs, hso⟩
    have hts : t = s := cancelOnly_active hso hact
    subst hts
    exact ActiveChain.cons t pid x hs hpar hact ih

theorem cancelOnly_active_le {s r : Task} (hab : cancelOnly s r) :
    (if isActive r.status = true then 1 else 0) ≤
      (if isActive s.status = true then (1 : Nat) else 0) := by
  rcases cancelOnly_status hab with h' | ⟨ha, h'⟩
  · rw [h']
  · rw [h', ha]
    decide

theorem Evolve.countActive_le {A B : Store} (h : Evolve A B) :
    countActive B ≤ countActive A := by
  unfold Evolve at h
  unfold countActive
  induction h with
  | nil => exact Nat.le_refl _
  | cons hab h ih =>
    simp only [List.countP_cons]
    exact Nat.add_le_add ih (cancelOnly_active_le hab)

theorem activeChain_trans {S : Store} {a b c : Nat}
    (h1 : ActiveChain S a b) (h2 : ActiveChain S b c) : ActiveChain S a c := by
  induction h1 with
  | base t pid hmem hpar hact => exact ActiveChain.cons t pid c hmem hpar hact h2
  | cons t pid x hmem hpar hact hsub ih => exact ActiveChain.cons t pid c hmem hpar hact (ih h2)

theorem chain_countActive_pos {S : Store} {p x : Nat} (h : ActiveChain S p x) :
    0 < countActive S := by
  induction h with
  | base t pid hmem hpar hact => exact active_mem_countActive_pos hmem hact
  | cons t pid x hmem hpar hact hsub ih => exact ih

end AgentTaskManager

namespace AgentTaskManager

/-! ## setCanceledByIds lemmas -/

theorem evolve_map_of_forall {S : Store} {f : Task → Task}
    (h : ∀ t ∈ S, cancelOnly t (f t)) : Evolve S (S.map f) := by
  unfold Evolve
  induction S with
  | nil => exact List.Forall₂.nil
  | cons a S ih =>
    exact List.Forall₂.cons (h a (List.mem_cons_self a S))
      (ih (fun t ht => h t (List.mem_cons_of_mem a ht)))

theorem evolve_setCanceled {S : Store} {pid : Nat} (hnd : NodupIds S) :
    Evolve S (setCanceledByIds S ((activeChildren S pid).map (·.id))) := by
  unfold setCanceledByIds
  apply evolve_map_of_forall
  intro t ht
  by_cases hmem : t.id ∈ (activeChildren S pid).map (·.id)
  · rcases List.mem_map.1 hmem with ⟨c, hc, hcid⟩
    have hcS := (mem_activeChildren.1 hc).1
    have hct : c = t := id_inj_of_nodup hnd hcS ht hcid
    subst hct
    have hact := (mem_activeChildren.1 hc).2.2
    simp only [if_pos hmem]
    exact Or.inr ⟨hact, rfl⟩
  · simp only [if_neg hmem]
    exact cancelOnly_refl t

theorem cancAll_setCanceled_of_mem {S : Store} {pid : Nat} {c : Task}
    (hc : c ∈ activeChildren S pid) :
    cancAll (setCanceledByIds S ((activeChildren S pid).map (·.id))) c.id := by
  intro r hr hid
  unfold setCanceledByIds at hr
  rcases List.mem_map.1 hr with ⟨orig, horig, hmap⟩
  by_cases hmem : orig.id ∈ (activeChildren S pid).map (·.id)
  · rw [if_pos hmem] at hmap
    rw [← hmap]
  · rw [if_neg hmem] at hmap
    subst hmap
    exact absurd (hid ▸ List.mem_map.2 ⟨c, hc, rfl⟩) hmem

theorem cancIn_setCanceled {S : Store} {pid x : Nat} (hnd : NodupIds S)
    (hact : activeIn S x)
    (hc : cancIn (setCanceledByIds S ((activeChildren S pid).map (·.id))) x) :
    ActiveChain S pid x := by
  rcases hc with ⟨r, hr, hrid, hrst⟩
  unfold setCanceledByIds at hr
  rcases List.mem_map.1 hr with ⟨orig, horig, hmap⟩
  by_cases hmem : orig.id ∈ (activeChildren S pid).map (·.id)
  · rcases List.mem_map.1 hmem with ⟨c, hc', hcid⟩
    have hcS := (mem_activeChildren.1 hc').1
    have hco : c = orig := id_inj_of_nodup hnd hcS horig hcid
    subst hco
    have hx : c.id = x := by
      rw [if_pos hmem] at hmap
      rw [← hrid, ← hmap]
    rw [← hx]
    exact ActiveChain.base c pid hcS (mem_activeChildren.1 hc').2.1
      (mem_activeChildren.1 hc').2.2
  · rw [if_neg hmem] at hmap
    subst hmap
    rcases hact with ⟨t, ht, htid, hta⟩
    have hto : t = orig := id_inj_of_nodup hnd ht horig (htid.trans hrid.symm)
    rw [hto, hrst] at hta
    simp [isActive] at hta

theorem countP_cancel_split (p : Task → Bool)
    (himp : ∀ t, p t = true → isActive t.status = true) (S : Store) :
    countActive
        (S.map (fun t => if p t = true then { t with status := TaskStatus.canceled } else t))
      + S.countP p = countActive S := by
  induction S with
  | nil => rfl
  | cons a S ih =>
    unfold countActive at ih ⊢
    simp only [List.map_cons, List.countP_cons]
    by_cases hp : p a = true
    · have ha := himp a hp
      have hfa : (if p a = true then { a with status := TaskStatus.canceled } else a)
          = { a with status := TaskStatus.canceled } := if_pos hp
      rw [hfa]
      have h1 : (if isActive ({ a with status := TaskStatus.canceled } : Task).status = true
          then (1 : Nat) else 0) = 0 := rfl
      have h2 : (if p a = true then (1 : Nat) else 0) = 1 := by rw [hp]; rfl
      have h3 : (if isActive a.status = true then (1 : Nat) else 0) = 1 := by rw [ha]; rfl
      rw [h1, h2, h3]
      omega
    · have hfa : (if p a = true then { a with status := TaskStatus.canceled } else a) = a :=
        if_neg hp
      rw [hfa]
      have h2 : (if p a = true then (1 : Nat) else 0) = 0 := by
        rw [eq_false_of_ne_true hp]
        rfl
      rw [h2]
      omega

theorem countActive_setCanceled (S : Store) (pid : Nat) (hnd : NodupIds S) :
    countActive (setCanceledByIds S ((activeChildren S pid).map (·.id)))
      + (activeChildren S pid).length = countActive S := by
  have hmapeq :
      setCanceledByIds S ((activeChildren S pid).map (·.id)) =
        S.map (fun t =>
          if (decide (t.parentTaskId = some pid) && isActive t.status) = true
          then { t with status := TaskStatus.canceled } else t) := by
    unfold setCanceledByIds
    apply List.map_congr_left
    intro t ht
    by_cases hp : (decide (t.parentTaskId = some pid) && isActive t.status) = true
    · have htc : t ∈ activeChildren S pid := by
        unfold activeChildren
        exact List.mem_filter.2 ⟨ht, hp⟩
      rw [if_pos (List.mem_map.2 ⟨t, htc, rfl⟩), if_pos hp]
    · have htc : t.id ∉ (activeChildren S pid).map (·.id) := by
        intro hmem
        rcases List.mem_map.1 hmem with ⟨c, hc, hcid⟩
        have hcS := (mem_activeChildren.1 hc).1
        have : c = t := id_inj_of_nodup hnd hcS ht hcid
        subst this
        unfold activeChildren at hc
        exact hp (List.mem_filter.1 hc).2
      rw [if_neg htc, if_neg hp]
  rw [hmapeq]
  have hlen : (activeChildren S pid).length =
      S.countP (fun t => decide (t.parentTaskId = some pid) && isActive t.status) := by
    unfold activeChildren
    rw [List.countP_eq_length_filter]
  rw [hlen]
  exact countP_cancel_split _ (fun t ht => by
    have := ht
    simp only [Bool.and_eq_true] at this
    exact this.2) S

end AgentTaskManager

namespace AgentTaskManager

/-! ## Structure of the recursive cascade -/

theorem cancelSubtasksRecursive_succ (fuel : Nat) (S : Store) (pid : Nat) :
    cancelSubtasksRecursive (fuel + 1) S pid =
      if (activeChildren S pid).isEmpty then S
      else ((activeChildren S pid).foldl
        (fun st sub => cancelSubtasksRecursive fuel st sub.id)
        (setCanceledByIds S ((activeChildren S pid).map (·.id)))) := rfl

theorem not_cancIn_of_activeIn {S : Store} {x : Nat} (hnd : NodupIds S)
    (hact : activeIn S x) (hc : cancIn S x) : False := by
  rcases hact with ⟨t, ht, htid, hta⟩
  rcases hc with ⟨r, hr, hrid, hrst⟩
  have htr : t = r := id_inj_of_nodup hnd ht hr (htid.trans hrid.symm)
  rw [htr, hrst] at hta
  simp [isActive] at hta

theorem chain_of_activeChildren {S : Store} {pid : Nat} {c : Task}
    (hc : c ∈ activeChildren S pid) : ActiveChain S pid c.id :=
  ActiveChain.base c pid (mem_activeChildren.1 hc).1
    (mem_activeChildren.1 hc).2.1 (mem_activeChildren.1 hc).2.2

theorem evolve_cancel_fold (fuel : Nat)
    (ih : ∀ S pid, NodupIds S → Evolve S (cancelSubtasksRecursive fuel S pid)) :
    ∀ (L : List Task) (S0 : Store), NodupIds S0 →
      Evolve S0 (L.foldl (fun st sub => cancelSubtasksRecursive fuel st sub.id) S0) := by
  intro L
  induction L with
  | nil =>
    intro S0 h
    exact Evolve.refl S0
  | cons c L ihL =>
    intro S0 hnd
    simp only [List.foldl_cons]
    have h1 := ih S0 c.id hnd
    exact Evolve.trans h1 (ihL _ (Evolve.nodup h1 hnd))

theorem evolve_cancel_rec : ∀ (fuel : Nat) (S : Store) (pid : Nat), NodupIds S →
    Evolve S (cancelSubtasksRecursive fuel S pid) := by
  intro fuel
  induction fuel with
  | zero =>
    intro S pid h
    exact Evolve.refl S
  | succ fuel ih =>
    intro S pid hnd
    rw [cancelSubtasksRecursive_succ]
    by_cases hempty : (activeChildren S pid).isEmpty
    · rw [if_pos hempty]
      exact Evolve.refl S
    · rw [if_neg hempty]
      have h1 : Evolve S (setCanceledByIds S ((activeChildren S pid).map (·.id))) :=
        evolve_setCanceled hnd
      exact Evolve.trans h1 (evolve_cancel_fold fuel ih _ _ (Evolve.nodup h1 hnd))

theorem cancel_fold_cancIn (fuel : Nat)
    (ih : ∀ S pid x, NodupIds S → activeIn S x →
      cancIn (cancelSubtasksRecursive fuel S pid) x → ActiveChain S pid x)
    (S : Store) (pid : Nat) (hnd : NodupIds S) :
    ∀ (L : List Task) (st : Store), Evolve S st →
      (∀ c ∈ L, ActiveChain S pid c.id) →
      ∀ x, cancIn (L.foldl (fun s2 sub => cancelSubtasksRecursive fuel s2 sub.id) st) x →
        cancIn st x ∨ ActiveChain S pid x := by
  intro L
  induction L with
  | nil =>
    intro st hev hch x hc
    exact Or.inl hc
  | cons c L ihL =>
    intro st hev hch x hc
    simp only [List.foldl_cons] at hc
    have hndst : NodupIds st := Evolve.nodup hev hnd
    have hev1 : Evolve st (cancelSubtasksRecursive fuel st c.id) :=
      evolve_cancel_rec fuel st c.id hndst
    have hres := ihL _ (Evolve.trans hev hev1)
      (fun d hd => hch d (List.mem_cons_of_mem c hd)) x hc
    rcases hres with hc1 | hchain
    · by_cases hcst : cancIn st x
      · exact Or.inl hcst
      · rcases hc1 with ⟨r, hr, hrid, hrst⟩
        rcases Evolve.mem_right hev1 hr with ⟨s, hs, hso⟩
        have hsid : s.id = x := (cancelOnly_id hso).symm.trans hrid
        rcases cancelOnly_status hso with heq | ⟨hsact, -⟩
        · exact absurd ⟨s, hs, hsid, heq.symm.trans hrst⟩ hcst
        · have hxact : activeIn st x := ⟨s, hs, hsid, hsact⟩
          have hchain_st : ActiveChain st c.id x :=
            ih st c.id x hndst hxact ⟨r, hr, hrid, hrst⟩
          have hchain_S : ActiveChain S c.id x := Evolve.chain_lift hev hchain_st
          exact Or.inr (activeChain_trans (hch c (List.mem_cons_self c L)) hchain_S)
    · exact Or.inr hchain

theorem cancel_rec_cancIn : ∀ (fuel : Nat) (S : Store) (pid x : Nat), NodupIds S →
    activeIn S x → cancIn (cancelSubtasksRecursive fuel S pid) x →
    ActiveChain S pid x := by
  intro fuel
  induction fuel with
  | zero =>
    intro S pid x hnd hact hc
    exact absurd hc (fun hc' => not_cancIn_of_activeIn hnd hact hc')
  | succ fuel ih =>
    intro S pid x hnd hact hc
    rw [cancelSubtasksRecursive_succ] at hc
    by_cases hempty : (activeChildren S pid).isEmpty
    · rw [if_pos hempty] at hc
      exact absurd hc (fun hc' => not_cancIn_of_activeIn hnd hact hc')
    · rw [if_neg hempty] at hc
      have hres := cancel_fold_cancIn fuel ih S pid hnd (activeChildren S pid) _
        (evolve_setCanceled hnd) (fun c hc' => chain_of_activeChildren hc') x hc
      rcases hres with h1 | h2
      · exact cancIn_setCanceled hnd hact h1
      · exact h2

end AgentTaskManager

namespace AgentTaskManager

theorem pidInactive_of_cancAll {S : Store} {pid : Nat} (h : cancAll S pid) :
    pidInactive S pid := by
  intro t ht htid
  rw [h t ht htid]
  rfl

theorem notin_ids_of_not_child {S : Store} {pid : Nat} {t : Task} (hnd : NodupIds S)
    (hmem : t ∈ S) (hno : ¬(t.parentTaskId = some pid ∧ isActive t.status = true)) :
    t.id ∉ (activeChildren S pid).map (·.id) := by
  intro hmem'
  rcases List.mem_map.1 hmem' with ⟨c, hc, hcid⟩
  have hct : c = t := id_inj_of_nodup hnd (mem_activeChildren.1 hc).1 hmem hcid
  subst hct
  exact hno ⟨(mem_activeChildren.1 hc).2.1, (mem_activeChildren.1 hc).2.2⟩

theorem survive_setCanceled {S : Store} {pid : Nat} {t : Task}
    (hmem : t ∈ S) (hno : t.id ∉ (activeChildren S pid).map (·.id)) :
    t ∈ setCanceledByIds S ((activeChildren S pid).map (·.id)) := by
  unfold setCanceledByIds
  have heq : (if t.id ∈ (activeChildren S pid).map (·.id)
      then { t with status := TaskStatus.canceled } else t) = t := if_neg hno
  rw [← heq]
  exact List.mem_map.2 ⟨t, hmem, rfl⟩

theorem chain_setCanceled {S : Store} {pid : Nat} (hnd : NodupIds S)
    (hpin : pidInactive S pid) :
    ∀ p x, ActiveChain S p x → p ≠ pid →
      ActiveChain (setCanceledByIds S ((activeChildren S pid).map (·.id))) p x := by
  intro p x hch
  induction hch with
  | base t p' hmem hpar hact =>
    intro hne
    have hno : ¬(t.parentTaskId = some pid ∧ isActive t.status = true) := by
      rintro ⟨hp2, -⟩
      exact hne (Option.some.inj (hpar.symm.trans hp2))
    exact ActiveChain.base t p'
      (survive_setCanceled hmem (notin_ids_of_not_child hnd hmem hno)) hpar hact
  | cons t p' x hmem hpar hact hsub ihsub =>
    intro hne
    have htne : t.id ≠ pid := fun h => by
      have := hpin t hmem h
      rw [hact] at this
      exact Bool.noConfusion this
    have hno : ¬(t.parentTaskId = some pid ∧ isActive t.status = true) := by
      rintro ⟨hp2, -⟩
      exact hne (Option.some.inj (hpar.symm.trans hp2))
    exact ActiveChain.cons t p' x
      (survive_setCanceled hmem (notin_ids_of_not_child hnd hmem hno)) hpar hact (ihsub htne)

theorem cancel_dicho (fuel : Nat)
    (ihT2 : ∀ S pid, NodupIds S → countActive S ≤ fuel → pidInactive S pid →
      ∀ x, ActiveChain S pid x → cancAll (cancelSubtasksRecursive fuel S pid) x)
    (st : Store) (c0 : Nat) (hnd : NodupIds st) (hcnt : countActive st ≤ fuel)
    (hpin : pidInactive st c0) :
    ∀ p x, ActiveChain st p x →
      cancAll (cancelSubtasksRecursive fuel st c0) x ∨
      ActiveChain (cancelSubtasksRecursive fuel st c0) p x := by
  intro p x hch
  have hev : Evolve st (cancelSubtasksRecursive fuel st c0) :=
    evolve_cancel_rec fuel st c0 hnd
  induction hch with
  | base t p' hmem hpar hact =>
    rcases Evolve.mem_left hev hmem with ⟨r, hr, hro⟩
    rcases cancelOnly_status hro with heq | ⟨-, hcanc⟩
    · right
      have hid := cancelOnly_id hro
      have hpar' : r.parentTaskId = some p' := (cancelOnly_parent hro).trans hpar
      have hact' : isActive r.status = true := by rw [heq]; exact hact
      exact hid ▸ ActiveChain.base r p' hr hpar' hact'
    · left
      intro q hq hqid
      have hqr : q = r :=
        id_inj_of_nodup (Evolve.nodup hev hnd) hq hr (hqid.trans (cancelOnly_id hro).symm)
      rw [hqr, hcanc]
  | cons t p' x hmem hpar hact hsub ihsub =>
    rcases Evolve.mem_left hev hmem with ⟨r, hr, hro⟩
    rcases cancelOnly_status hro with heq | ⟨-, hcanc⟩
    · rcases ihsub with h1 | h2
      · exact Or.inl h1
      · right
        refine ActiveChain.cons r p' x hr ((cancelOnly_parent hro).trans hpar)
          (by rw [heq]; exact hact) ?_
        rw [cancelOnly_id hro]
        exact h2
    · left
      have hcancIn : cancIn (cancelSubtasksRecursive fuel st c0) t.id :=
        ⟨r, hr, cancelOnly_id hro, hcanc⟩
      have hactIn : activeIn st t.id := ⟨t, hmem, rfl, hact⟩
      have hchain0 : ActiveChain st c0 t.id :=
        cancel_rec_cancIn fuel st c0 t.id hnd hactIn hcancIn
      exact ihT2 st c0 hnd hcnt hpin x (activeChain_trans hchain0 hsub)

theorem cancel_fold_preserves (fuel : Nat) (L : List Task) (st : Store) (x : Nat)
    (hnd : NodupIds st) (hc : cancAll st x) :
    cancAll (L.foldl (fun s2 sub => cancelSubtasksRecursive fuel s2 sub.id) st) x :=
  Evolve.cancAll
    (evolve_cancel_fold fuel (fun S pid h => evolve_cancel_rec fuel S pid h) L st hnd) hc

theorem cancel_fold_cancAll (fuel : Nat)
    (ihT2 : ∀ S pid, NodupIds S → countActive S ≤ fuel → pidInactive S pid →
      ∀ x, ActiveChain S pid x → cancAll (cancelSubtasksRecursive fuel S pid) x) :
    ∀ (L : List Task) (st : Store), NodupIds st → countActive st ≤ fuel →
      (∀ c ∈ L, pidInactive st c.id) →
      ∀ c ∈ L, ∀ x, (cancAll st x ∨ ActiveChain st c.id x) →
        cancAll (L.foldl (fun s2 sub => cancelSubtasksRecursive fuel s2 sub.id) st) x := by
  intro L
  induction L with
  | nil =>
    intro st _ _ _ c hc
    cases hc
  | cons c0 L ihL =>
    intro st hnd hcnt hpin c hc x hx
    simp only [List.foldl_cons]
    have hev : Evolve st (cancelSubtasksRecursive fuel st c0.id) :=
      evolve_cancel_rec fuel st c0.id hnd
    have hnd' : NodupIds (cancelSubtasksRecursive fuel st c0.id) := Evolve.nodup hev hnd
    have hcnt' : countActive (cancelSubtasksRecursive fuel st c0.id) ≤ fuel :=
      le_trans (Evolve.countActive_le hev) hcnt
    have hpin' : ∀ d ∈ L, pidInactive (cancelSubtasksRecursive fuel st c0.id) d.id :=
      fun d hd => Evolve.pidInactive hev (hpin d (List.mem_cons_of_mem c0 hd))
    rcases List.mem_cons.1 hc with hceq | hcL
    · subst hceq
      have hcanc' : cancAll (cancelSubtasksRecursive fuel st c.id) x := by
        rcases hx with h1 | h2
        · exact Evolve.cancAll hev h1
        · exact ihT2 st c.id hnd hcnt (hpin c (List.mem_cons_self c L)) x h2
      exact cancel_fold_preserves fuel L _ x hnd' hcanc'
    · rcases hx with h1 | h2
      · exact ihL _ hnd' hcnt' hpin' c hcL x (Or.inl (Evolve.cancAll hev h1))
      · rcases cancel_dicho fuel ihT2 st c0.id hnd hcnt
          (hpin c0 (List.mem_cons_self c0 L)) c.id x h2 with hh1 | hh2
        · exact ihL _ hnd' hcnt' hpin' c hcL x (Or.inl hh1)
        · exact ihL _ hnd' hcnt' hpin' c hcL x (Or.inr hh2)

theorem cancel_rec_cancAll : ∀ (fuel : Nat) (S : Store) (pid : Nat), NodupIds S →
    countActive S ≤ fuel → pidInactive S pid →
    ∀ x, ActiveChain S pid x → cancAll (cancelSubtasksRecursive fuel S pid) x := by
  intro fuel
  induction fuel with
  | zero =>
    intro S pid hnd hcnt hpin x hch
    have := chain_countActive_pos hch
    omega
  | succ fuel ih =>
    intro S pid hnd hcnt hpin x hch
    rw [cancelSubtasksRecursive_succ]
    have hchild : ∃ c, c ∈ activeChildren S pid := by
      cases hch with
      | base t p hmem hpar hact => exact ⟨t, mem_activeChildren.2 ⟨hmem, hpar, hact⟩⟩
      | cons t p x hmem hpar hact hsub => exact ⟨t, mem_activeChildren.2 ⟨hmem, hpar, hact⟩⟩
    have hne : activeChildren S pid ≠ [] := by
      rcases hchild with ⟨c, hc⟩
      intro h
      rw [h] at hc
      cases hc
    have hempty : (activeChildren S pid).isEmpty = false := by
      cases hsubs : activeChildren S pid with
      | nil => exact absurd hsubs hne
      | cons a l => rfl
    rw [if_neg (by simp [hempty])]
    have hevS1 : Evolve S (setCanceledByIds S ((activeChildren S pid).map (·.id))) :=
      evolve_setCanceled hnd
    have hndS1 := Evolve.nodup hevS1 hnd
    have hlen_pos : 0 < (activeChildren S pid).length := List.length_pos.2 hne
    have hcntS1 : countActive (setCanceledByIds S ((activeChildren S pid).map (·.id))) ≤ fuel := by
      have := countActive_setCanceled S pid hnd
      omega
    have hpinsubs : ∀ c ∈ activeChildren S pid,
        pidInactive (setCanceledByIds S ((activeChildren S pid).map (·.id))) c.id :=
      fun c hc => pidInactive_of_cancAll (cancAll_setCanceled_of_mem hc)
    cases hch with
    | base t p hmem hpar hact =>
      have hc : t ∈ activeChildren S pid := mem_activeChildren.2 ⟨hmem, hpar, hact⟩
      exact cancel_fold_cancAll fuel ih (activeChildren S pid) _ hndS1 hcntS1 hpinsubs
        t hc t.id (Or.inl (cancAll_setCanceled_of_mem hc))
    | cons t p x hmem hpar hact hsub =>
      have hc : t ∈ activeChildren S pid := mem_activeChildren.2 ⟨hmem, hpar, hact⟩
      have htne : t.id ≠ pid := fun h => by
        have := hpin t hmem h
        rw [hact] at this
        exact Bool.noConfusion this
      have hsub1 := chain_setCanceled hnd hpin t.id x hsub htne
      exact cancel_fold_cancAll fuel ih (activeChildren S pid) _ hndS1 hcntS1 hpinsubs
        t hc x (Or.inr hsub1)

end AgentTaskManager

namespace AgentTaskManager

/-! ## Well-formedness and skeleton lemmas -/

theorem wf_iff {S : Store} : wellFormedB S = true ↔ WF S := by
  unfold wellFormedB WF
  rw [List.all_eq_true]
  constructor
  · intro h t ht p hp
    have h2 := h t ht
    rw [hp] at h2
    simp only [List.any_eq_true, Bool.and_eq_true, beq_iff_eq, decide_eq_true_eq] at h2
    rcases h2 with ⟨q, hq, hqid, hqlt⟩
    exact ⟨q, hq, hqid, hqlt⟩
  · intro h t ht
    cases hp : t.parentTaskId with
    | none => rfl
    | some p =>
      rcases h t ht p hp with ⟨q, hq, hqid, hqlt⟩
      simp only [List.any_eq_true, Bool.and_eq_true, beq_iff_eq, decide_eq_true_eq]
      exact ⟨q, hq, hqid, hqlt⟩

theorem chain_createdAt_lt {S : Store} (hnd : NodupIds S) (hwf : WF S) :
    ∀ a x, ActiveChain S a x → ∀ ta, ta ∈ S → ta.id = a → ∀ tx, tx ∈ S → tx.id = x →
      ta.createdAt < tx.createdAt := by
  intro a x hch
  induction hch with
  | base t p hmem hpar hact =>
    intro ta hta htaid tx htx htxid
    have htxt : tx = t := id_inj_of_nodup hnd htx hmem htxid
    rcases hwf t hmem p hpar with ⟨q, hq, hqid, hqlt⟩
    have htaq : ta = q := id_inj_of_nodup hnd hta hq (htaid.trans hqid.symm)
    rw [htaq, htxt]
    exact hqlt
  | cons t p x hmem hpar hact hsub ihsub =>
    intro ta hta htaid tx htx htxid
    rcases hwf t hmem p hpar with ⟨q, hq, hqid, hqlt⟩
    have htaq : ta = q := id_inj_of_nodup hnd hta hq (htaid.trans hqid.symm)
    have h2 : t.createdAt < tx.createdAt := ihsub t hmem rfl tx htx htxid
    rw [htaq]
    omega

theorem forall₂_map_of_forall {R : Task → Task → Prop} {S : Store} {f : Task → Task}
    (h : ∀ t ∈ S, R t (f t)) : List.Forall₂ R S (S.map f) := by
  induction S with
  | nil => exact List.Forall₂.nil
  | cons a S ih =>
    exact List.Forall₂.cons (h a (List.mem_cons_self a S))
      (ih (fun t ht => h t (List.mem_cons_of_mem a ht)))

theorem forall₂_mem_right {R : Task → Task → Prop} {A B : Store}
    (h : List.Forall₂ R A B) {b : Task} (hb : b ∈ B) : ∃ a, a ∈ A ∧ R a b := by
  induction h with
  | nil => cases hb
  | cons hab h ih =>
    rcases List.mem_cons.1 hb with h' | h'
    · subst h'
      exact ⟨_, List.mem_cons_self _ _, hab⟩
    · rcases ih h' with ⟨a, ha, har⟩
      exact ⟨a, List.mem_cons_of_mem _ ha, har⟩

theorem forall₂_mem_left {R : Task → Task → Prop} {A B : Store}
    (h : List.Forall₂ R A B) {a : Task} (ha : a ∈ A) : ∃ b, b ∈ B ∧ R a b := by
  induction h with
  | nil => cases ha
  | cons hab h ih =>
    rcases List.mem_cons.1 ha with h' | h'
    · subst h'
      exact ⟨_, List.mem_cons_self _ _, hab⟩
    · rcases ih h' with ⟨b, hb, hbr⟩
      exact ⟨b, List.mem_cons_of_mem _ hb, hbr⟩

theorem sameSkel_map_id {A B : Store} (h : SameSkel A B) :
    B.map (·.id) = A.map (·.id) := by
  unfold SameSkel at h
  induction h with
  | nil => rfl
  | cons hab h ih => simp [hab.1, ih]

theorem sameSkel_nodup {A B : Store} (h : SameSkel A B) (hnd : NodupIds A) :
    NodupIds B := by
  unfold NodupIds at *
  rw [sameSkel_map_id h]
  exact hnd

theorem SameSkel.wf {A B : Store} (h : SameSkel A B) (hwf : WF A) : WF B := by
  intro t ht p hp
  rcases forall₂_mem_right h ht with ⟨a, ha, hid, hpar, hca⟩
  rcases hwf a ha p (by rw [← hpar, hp]) with ⟨q, hq, hqid, hqlt⟩
  rcases forall₂_mem_left h hq with ⟨q', hq', hqid', hqpar', hqca'⟩
  exact ⟨q', hq', hqid'.trans hqid, by omega⟩

theorem sameSkel_of_evolve {A B : Store} (h : Evolve A B) : SameSkel A B := by
  unfold Evolve at h
  unfold SameSkel
  induction h with
  | nil => exact List.Forall₂.nil
  | cons hab h ih =>
    exact List.Forall₂.cons
      ⟨cancelOnly_id hab, cancelOnly_parent hab, cancelOnly_createdAt hab⟩ ih

theorem sameSkel_saveTask {S : Store} {T t' : Task} (hnd : NodupIds S) (hT : T ∈ S)
    (hid : t'.id = T.id) (hpar : t'.parentTaskId = T.parentTaskId)
    (hca : t'.createdAt = T.createdAt) : SameSkel S (saveTask S t') := by
  unfold saveTask SameSkel
  apply forall₂_map_of_forall
  intro x hx
  by_cases hxe : x.id = t'.id
  · have hxT : x = T := id_inj_of_nodup hnd hx hT (hxe.trans hid)
    rw [if_pos hxe, hxT]
    exact ⟨hid, hpar, hca⟩
  · rw [if_neg hxe]
    exact ⟨rfl, rfl, rfl⟩

theorem sameSkel_updateStatus {S : Store} {pid : Nat} {st : TaskStatus} :
    SameSkel S (updateStatus S pid st) := by
  unfold updateStatus SameSkel
  apply forall₂_map_of_forall
  intro x hx
  by_cases hxe : x.id = pid
  · rw [if_pos hxe]
    exact ⟨rfl, rfl, rfl⟩
  · rw [if_neg hxe]
    exact ⟨rfl, rfl, rfl⟩

theorem mem_saveTask_of_ne {S : Store} {t' t : Task} (hmem : t ∈ S)
    (hne : t.id ≠ t'.id) : t ∈ saveTask S t' := by
  unfold saveTask
  have heq : (if t.id = t'.id then t' else t) = t := if_neg hne
  rw [← heq]
  exact List.mem_map.2 ⟨t, hmem, rfl⟩

theorem self_mem_saveTask {S : Store} {T t' : Task} (hT : T ∈ S)
    (hid : T.id = t'.id) : t' ∈ saveTask S t' := by
  unfold saveTask
  refine List.mem_map.2 ⟨T, hT, ?_⟩
  rw [if_pos hid]

theorem chain_saveTask_of_wf {S : Store} {T t' : Task} (hnd : NodupIds S) (hwf : WF S)
    (hT : T ∈ S) (hid : t'.id = T.id) :
    ∀ p x, ActiveChain S p x →
      (∀ tp, tp ∈ S → tp.id = p → T.createdAt ≤ tp.createdAt) →
      ActiveChain (saveTask S t') p x := by
  intro p x hch
  induction hch with
  | base t p' hmem hpar hact =>
    intro hge
    have htT : t ≠ T := by
      intro h
      subst h
      rcases hwf t hmem p' hpar with ⟨q, hq, hqid, hqlt⟩
      have := hge q hq hqid
      omega
    have htid : t.id ≠ t'.id := fun h => htT (id_inj_of_nodup hnd hmem hT (h.trans hid))
    exact ActiveChain.base t p' (mem_saveTask_of_ne hmem htid) hpar hact
  | cons t p' x hmem hpar hact hsub ihsub =>
    intro hge
    have htT : t ≠ T := by
      intro h
      subst h
      rcases hwf t hmem p' hpar with ⟨q, hq, hqid, hqlt⟩
      have := hge q hq hqid
      omega
    have htid : t.id ≠ t'.id := fun h => htT (id_inj_of_nodup hnd hmem hT (h.trans hid))
    have hge' : ∀ tp, tp ∈ S → tp.id = t.id → T.createdAt ≤ tp.createdAt := by
      intro tp htp htpid
      have htpt : tp = t := id_inj_of_nodup hnd htp hmem htpid
      subst htpt
      rcases hwf tp hmem p' hpar with ⟨q, hq, hqid, hqlt⟩
      have := hge q hq hqid
      omega
    exact ActiveChain.cons t p' x (mem_saveTask_of_ne hmem htid) hpar hact (ihsub hge')

theorem cancAll_updateStatus {S : Store} {pid x : Nat} {st : TaskStatus}
    (h : cancAll S x) (hne : x ≠ pid) : cancAll (updateStatus S pid st) x := by
  intro q hq hqid
  unfold updateStatus at hq
  rcases List.mem_map.1 hq with ⟨orig, horig, hmap⟩
  by_cases he : orig.id = pid
  · rw [if_pos he] at hmap
    subst hmap
    exact absurd (hqid.symm.trans he) hne
  · rw [if_neg he] at hmap
    subst hmap
    exact h orig horig hqid

theorem countP_congr_forall₂ {R : Task → Task → Prop} {A B : Store}
    (h : List.Forall₂ R A B) (p : Task → Bool) (hp : ∀ a b, R a b → p a = p b) :
    A.countP p = B.countP p := by
  induction h with
  | nil => rfl
  | cons hab h ih =>
    simp only [List.countP_cons]
    rw [ih, hp _ _ hab]

theorem forall₂_and_mem {R : Task → Task → Prop} {A B : Store} (h : List.Forall₂ R A B) :
    List.Forall₂ (fun a b => R a b ∧ a ∈ A ∧ b ∈ B) A B := by
  induction h with
  | nil => exact List.Forall₂.nil
  | cons hab h ih =>
    refine List.Forall₂.cons ⟨hab, List.mem_cons_self _ _, List.mem_cons_self _ _⟩ ?_
    refine ih.imp ?_
    intro a b hr
    exact ⟨hr.1, List.mem_cons_of_mem _ hr.2.1, List.mem_cons_of_mem _ hr.2.2⟩

theorem countActive_le_length (S : Store) : countActive S ≤ S.length :=
  List.countP_le_length _

theorem pair_error_ne_ok {A B : Store} {e : HErr} {t : Task}
    (h : (A, (Except.error e : Except HErr Task)) = (B, Except.ok t)) : False := by
  have h2 := congrArg Prod.snd h
  simp at h2

end AgentTaskManager

namespace AgentTaskManager

/-! ## Membership helpers for the row primitives -/

theorem updateStatus_sets {S : Store} {pid : Nat} {st : TaskStatus} {q : Task}
    (hq : q ∈ updateStatus S pid st) (hid : q.id = pid) : q.status = st := by
  unfold updateStatus at hq
  rcases List.mem_map.1 hq with ⟨orig, horig, hmap⟩
  by_cases he : orig.id = pid
  · rw [if_pos he] at hmap
    rw [← hmap]
  · rw [if_neg he] at hmap
    subst hmap
    exact absurd hid he

theorem mem_updateStatus_of_ne {S : Store} {pid : Nat} {st : TaskStatus} {q : Task}
    (hq : q ∈ S) (hne : q.id ≠ pid) : q ∈ updateStatus S pid st := by
  unfold updateStatus
  refine List.mem_map.2 ⟨q, hq, ?_⟩
  rw [if_neg hne]

theorem mem_saveTask_src {S : Store} {t' q : Task} (hq : q ∈ saveTask S t')
    (hne : q.id ≠ t'.id) : q ∈ S := by
  unfold saveTask at hq
  rcases List.mem_map.1 hq with ⟨orig, horig, hmap⟩
  by_cases he : orig.id = t'.id
  · rw [if_pos he] at hmap
    subst hmap
    exact absurd rfl hne
  · rw [if_neg he] at hmap
    subst hmap
    exact horig

theorem mem_saveTask_eq {S : Store} {t' q : Task} (hq : q ∈ saveTask S t')
    (hid : q.id = t'.id) : q = t' := by
  unfold saveTask at hq
  rcases List.mem_map.1 hq with ⟨orig, horig, hmap⟩
  by_cases he : orig.id = t'.id
  · rw [if_pos he] at hmap
    rw [← hmap]
  · rw [if_neg he] at hmap
    subst hmap
    exact absurd hid he

theorem parent_ne_self {S : Store} (hnd : NodupIds S) (hwf : WF S) {T : Task}
    (hT : T ∈ S) {pid : Nat} (hp : T.parentTaskId = some pid) : pid ≠ T.id := by
  intro h
  rcases hwf T hT pid hp with ⟨q, hq, hqid, hqlt⟩
  have : q = T := id_inj_of_nodup hnd hq hT (by rw [hqid, h])
  rw [this] at hqlt
  omega

theorem no_chain_to_parent {S : Store} {tid pid : Nat} (hnd : NodupIds S) (hwf : WF S)
    {T : Task} (hT : T ∈ S) (hTid : T.id = tid) (hTpar : T.parentTaskId = some pid) :
    ¬ ActiveChain S tid pid := by
  intro hch
  rcases hwf T hT pid hTpar with ⟨q, hq, hqid, hqlt⟩
  have := chain_createdAt_lt hnd hwf tid pid hch T hT hTid q hq hqid
  omega

theorem chain_last_parent {S : Store} (hnd : NodupIds S) :
    ∀ a x, ActiveChain S a x → ∀ tx, tx ∈ S → tx.id = x → ∀ p, tx.parentTaskId = some p →
      p = a ∨ ActiveChain S a p := by
  intro a x hch
  induction hch with
  | base t p' hmem hpar hact =>
    intro tx htx htxid p hp
    have htxt : tx = t := id_inj_of_nodup hnd htx hmem htxid
    subst htxt
    left
    exact Option.some.inj (hp.symm.trans hpar)
  | cons t p' x hmem hpar hact hsub ihsub =>
    intro tx htx htxid p hp
    rcases ihsub tx htx htxid p hp with h1 | h2
    · right
      rw [h1]
      exact ActiveChain.base t p' hmem hpar hact
    · right
      exact ActiveChain.cons t p' p hmem hpar hact h2

theorem no_chain_to_sibling {S : Store} {tid pid : Nat} (hnd : NodupIds S) (hwf : WF S)
    {T : Task} (hT : T ∈ S) (hTid : T.id = tid) (hTpar : T.parentTaskId = some pid)
    {s : Task} (hs : s ∈ S) (hspar : s.parentTaskId = some pid) :
    ¬ ActiveChain S tid s.id := by
  intro hch
  rcases chain_last_parent hnd tid s.id hch s hs rfl pid hspar with h1 | h2
  · rcases hwf T hT pid hTpar with ⟨q, hq, hqid, hqlt⟩
    have hqT : q = T := id_inj_of_nodup hnd hq hT (by rw [hqid, h1, hTid])
    rw [hqT] at hqlt
    omega
  · exact no_chain_to_parent hnd hwf hT hTid hTpar h2

theorem cascade_row_mem_of_no_chain {S1 : Store} {tid : Nat} {fuel : Nat}
    (hnd : NodupIds S1) {q : Task}
    (hq : q ∈ cancelSubtasksRecursive fuel S1 tid)
    (hno : ¬ ActiveChain S1 tid q.id) : q ∈ S1 := by
  have hev := evolve_cancel_rec fuel S1 tid hnd
  rcases Evolve.mem_right hev hq with ⟨s, hs, hco⟩
  rcases hco with heq | ⟨hact, hqc⟩
  · rw [heq]
    exact hs
  · exfalso
    apply hno
    have hqid : q.id = s.id := by rw [hqc]
    have hchain : ActiveChain S1 tid s.id :=
      cancel_rec_cancIn fuel S1 tid s.id hnd ⟨s, hs, rfl, hact⟩
        ⟨q, hq, hqid, by rw [hqc]⟩
    rw [hqid]
    exact hchain

theorem countSiblings_evolve_eq {A B : Store} (h : Evolve A B) (pid : Nat) :
    countSiblings B pid = countSiblings A pid := by
  unfold countSiblings
  unfold Evolve at h
  exact (countP_congr_forall₂ h _ (fun a b hco => by rw [cancelOnly_parent hco])).symm

theorem countDone_cascade_eq (S1 : Store) (tid pid fuel : Nat) (hnd : NodupIds S1)
    (hwf : WF S1) (T1 : Task) (hT : T1 ∈ S1) (hTid : T1.id = tid)
    (hTpar : T1.parentTaskId = some pid) :
    countDoneSiblings (cancelSubtasksRecursive fuel S1 tid) pid =
      countDoneSiblings S1 pid := by
  unfold countDoneSiblings
  have hev := evolve_cancel_rec fuel S1 tid hnd
  have h2 := forall₂_and_mem (by unfold Evolve at hev; exact hev)
  refine (countP_congr_forall₂ h2 _ ?_).symm
  rintro a b ⟨hco, haS1, hbS2⟩
  by_cases hpar : a.parentTaskId = some pid
  · have hbs : b = a := by
      rcases hco with heq | ⟨hact, hbc⟩
      · exact heq
      · exfalso
        have hbid : b.id = a.id := by rw [hbc]
        have hchain : ActiveChain S1 tid a.id :=
          cancel_rec_cancIn fuel S1 tid a.id hnd ⟨a, haS1, rfl, hact⟩
            ⟨b, hbS2, hbid, by rw [hbc]⟩
        exact no_chain_to_sibling hnd hwf hT hTid hTpar haS1 hpar hchain
    rw [hbs]
  · have hbp : b.parentTaskId = a.parentTaskId := cancelOnly_parent hco
    have h1 : decide (a.parentTaskId = some pid) = false := by
      simp [hpar]
    have h1b : decide (b.parentTaskId = some pid) = false := by
      rw [hbp]
      simp [hpar]
    simp [h1, h1b]

end AgentTaskManager

namespace AgentTaskManager

/-- C6: for a task in working status, a successful fail operation by its
assignee changes only that task, setting status failed and a tagged
failure message as result; the committed store is the original store
with just that row replaced, so no child row changes and the parent
task's row (hence its status, deliberately left in waiting) is carried
over unchanged. -/
theorem c6_fail_changes_only_the_task (S : Store) (u : String) (tid : Nat)
    (reason : String) (t' : Task)
    (hok : (FailTaskHandler S u tid { reason := reason }).2 = Except.ok t') :
    t'.status = TaskStatus.failed ∧
    t'.result = "FAILURE REASON: " ++ reason ∧
    (FailTaskHandler S u tid { reason := reason }).1 = saveTask S t' ∧
    (∀ q, q ∈ S → q.id ≠ tid → q ∈ (FailTaskHandler S u tid { reason := reason }).1) ∧
    (∀ q, q ∈ (FailTaskHandler S u tid { reason := reason }).1 → q.id ≠ tid → q ∈ S) ∧
    (∀ p, t'.parentTaskId = some p → p ≠ tid →
      ∀ q, q ∈ S → q.id = p → q ∈ (FailTaskHandler S u tid { reason := reason }).1) := by
  unfold FailTaskHandler at hok ⊢
  cases hfind : findTask S tid with
  | none =>
    rw [hfind] at hok
    exact absurd hok (by simp)
  | some T =>
    have hTmem := (findTask_mem_id hfind).1
    have hTid := (findTask_mem_id hfind).2
    simp only [hfind] at hok ⊢
    by_cases h1 : T.assignee ≠ u
    · rw [if_pos h1] at hok
      exact absurd hok (by simp)
    rw [if_neg h1] at hok ⊢
    by_cases h2 : T.status ≠ TaskStatus.working
    · rw [if_pos h2] at hok
      exact absurd hok (by simp)
    rw [if_neg h2] at hok ⊢
    have ht' : failedTask T { reason := reason } = t' := by simpa using hok
    subst ht'
    have hfid : (failedTask T { reason := reason }).id = tid := hTid
    refine ⟨rfl, rfl, rfl, ?_, ?_, ?_⟩
    · intro q hq hne
      exact mem_saveTask_of_ne hq (fun h => hne (h.trans hfid))
    · intro q hq hne
      exact mem_saveTask_src hq (fun h => hne (h.trans hfid))
    · intro p hp hpne q hq hqid
      exact mem_saveTask_of_ne hq (fun h => hpne ((hqid.symm.trans h).trans hfid))

end AgentTaskManager

namespace AgentTaskManager

/-- C4 (amended): canceling a task whose status is completed, canceled
or failed is rejected with a validation error when the caller is the
assignee or the creator, and with a forbidden error for any other
actor; in both cases the transaction rolls back and the returned store
is the unchanged input store. -/
theorem c4_terminal_cancel_rejected (S : Store) (u : String) (T : Task)
    (hnd : NodupIds S) (hT : T ∈ S)
    (hterm : T.status = TaskStatus.completed ∨ T.status = TaskStatus.canceled ∨
      T.status = TaskStatus.failed) :
    ((T.assignee = u ∨ T.createdBy = u) →
      CancelTaskHandler S u T.id = (S, Except.error HErr.validation)) ∧
    (T.assignee ≠ u → T.createdBy ≠ u →
      CancelTaskHandler S u T.id = (S, Except.error HErr.forbidden)) := by
  unfold CancelTaskHandler
  simp only [findTask_eq_some hnd hT]
  constructor
  · intro hu
    have hno : ¬(T.assignee ≠ u ∧ T.createdBy ≠ u) := by
      rintro ⟨ha, hb⟩
      rcases hu with h | h
      · exact ha h
      · exact hb h
    rw [if_neg hno, if_pos hterm]
  · intro ha hb
    rw [if_pos ⟨ha, hb⟩]

/-- C4 counterexample: the claim promises a validation error for any
actor, but a third actor that is neither assignee nor creator receives
a forbidden error when canceling a completed task. -/
theorem c4_counterexample :
    CancelTaskHandler c4xS "z" 1 = (c4xS, Except.error HErr.forbidden) ∧
    HErr.forbidden ≠ HErr.validation ∧
    (∃ t, t ∈ c4xS ∧ t.id = 1 ∧ t.status = TaskStatus.completed) := by
  refine ⟨rfl, by decide, mkTask 1 0 none "b" "a" (some 1) none .completed, by decide, rfl, rfl⟩

/-- C4 witness: the amended theorem applied at the concrete store, once
for the assignee and once for a third actor. -/
theorem c4_witness :
    NodupIds c4xS ∧
    CancelTaskHandler c4xS "a" 1 = (c4xS, Except.error HErr.validation) ∧
    CancelTaskHandler c4xS "z" 1 = (c4xS, Except.error HErr.forbidden) := by
  refine ⟨by decide, ?_, ?_⟩
  · exact (c4_terminal_cancel_rejected c4xS "a"
      (mkTask 1 0 none "b" "a" (some 1) none .completed)
      (by decide) (by decide) (Or.inl rfl)).1 (Or.inl rfl)
  · exact (c4_terminal_cancel_rejected c4xS "z"
      (mkTask 1 0 none "b" "a" (some 1) none .completed)
      (by decide) (by decide) (Or.inl rfl)).2 (by decide) (by decide)

end AgentTaskManager

namespace AgentTaskManager

/-- C6 witness: failing the working child of a waiting parent at a
concrete store succeeds and the parent row is carried over unchanged. -/
theorem c6_witness :
    (FailTaskHandler c6S "u" 1 { reason := "x" }).2 =
      Except.ok (failedTask (mkTask 1 1 none "c" "u" (some 2) (some 2) .working)
        { reason := "x" }) ∧
    mkTask 2 0 none "c" "w" (some 2) none .waiting ∈
      (FailTaskHandler c6S "u" 1 { reason := "x" }).1 := by
  constructor
  · rfl
  · exact (c6_fail_changes_only_the_task c6S "u" 1 "x" _ rfl).2.2.2.2.2
      2 rfl (by decide) (mkTask 2 0 none "c" "w" (some 2) none .waiting) (by decide) rfl

/-- C5: creating a task under a parent fails with a validation error
and leaves the store unchanged when the parent is not in submitted,
working or waiting; when it is, the new task is inserted in status
submitted and the parent row is moved to waiting as a side effect. -/
theorem c5_create_with_parent (S : Store) (u : String) (req : CreateTaskRequest)
    (newID now : Nat) (P : Task) (hnd : NodupIds S) (hP : P ∈ S)
    (hpid : req.parentTaskId = some P.id) (hcred : credentialsInvalid req = false)
    (hfresh : ∀ t ∈ S, t.id ≠ newID) :
    (isParentStatusAllowed P.status = false →
      CreateTaskHandler S u req newID now = (S, Except.error HErr.validation)) ∧
    (isParentStatusAllowed P.status = true →
      ∃ t', (CreateTaskHandler S u req newID now).2 = Except.ok t' ∧
        t'.status = TaskStatus.submitted ∧ t'.id = newID ∧
        t' ∈ (CreateTaskHandler S u req newID now).1 ∧
        (∀ q, q ∈ (CreateTaskHandler S u req newID now).1 → q.id = P.id →
          q.status = TaskStatus.waiting)) := by
  unfold CreateTaskHandler
  rw [if_neg (by simp [hcred])]
  simp only [hpid, findTask_eq_some hnd hP]
  constructor
  · intro hna
    rw [if_pos (by simp [hna])]
  · intro hall
    rw [if_neg (by simp [hall])]
    have hPne : P.id ≠ newID := hfresh P hP
    refine ⟨_, rfl, rfl, rfl, ?_, ?_⟩
    · refine mem_updateStatus_of_ne ?_ ?_
      · exact List.mem_append.2 (Or.inr (List.mem_singleton_self _))
      · exact fun h => hPne (h.symm)
    · intro q hq hqid
      exact updateStatus_sets hq hqid

/-- C5 witness: creating a child of the concrete working parent makes
the child submitted and the parent waiting. -/
theorem c5_witness :
    NodupIds c5S ∧ credentialsInvalid c5req = false ∧
    isParentStatusAllowed TaskStatus.working = true ∧
    (CreateTaskHandler c5S "c" c5req 99 7).2 = Except.ok c5New ∧
    c5New.status = TaskStatus.submitted ∧
    mkTask 1 0 none "c" "u" (some 1) none .waiting ∈
      (CreateTaskHandler c5S "c" c5req 99 7).1 ∧
    (mkTask 1 0 none "c" "u" (some 1) none .waiting).status = TaskStatus.waiting := by
  obtain ⟨t', h2, hst, hid, hmem, hq⟩ :=
    (c5_create_with_parent c5S "c" c5req 99 7
      (mkTask 1 0 none "c" "u" (some 1) none .working)
      (by decide) (by decide) rfl rfl (by decide)).2 rfl
  exact ⟨by decide, rfl, rfl, rfl, rfl, by decide,
    hq (mkTask 1 0 none "c" "u" (some 1) none .waiting) (by decide) rfl⟩

end AgentTaskManager

namespace AgentTaskManager

/-- C8: a task returned by a successful create has a non-null
root_task_id; without a parent it equals the task's own id (written by
the follow-up save after the insert), and with a parent it equals the
parent's root_task_id whenever the parent has one. -/
theorem c8_root_task_id (S : Store) (u : String) (req : CreateTaskRequest)
    (newID now : Nat) (t' : Task)
    (hok : (CreateTaskHandler S u req newID now).2 = Except.ok t') :
    t'.rootTaskId ≠ none ∧
    (req.parentTaskId = none → t'.id = newID ∧ t'.rootTaskId = some newID ∧
      t' ∈ (CreateTaskHandler S u req newID now).1) ∧
    (∀ pid P, req.parentTaskId = some pid → findTask S pid = some P →
      ∀ r, P.rootTaskId = some r → t'.rootTaskId = some r) := by
  unfold CreateTaskHandler at hok ⊢
  by_cases hcred : credentialsInvalid req = true
  · rw [if_pos hcred] at hok
    exact absurd hok (by simp)
  rw [if_neg hcred] at hok ⊢
  cases hp : req.parentTaskId with
  | none =>
    simp only [hp] at hok ⊢
    simp only [Except.ok.injEq] at hok
    subst hok
    refine ⟨by simp, ?_, ?_⟩
    · intro h0
      refine ⟨rfl, rfl, ?_⟩
      exact self_mem_saveTask (List.mem_append.2 (Or.inr (List.mem_singleton_self _))) rfl
    · intro pid P hpid
      exact absurd hpid (by simp)
  | some pid0 =>
    simp only [hp] at hok ⊢
    cases hfind : findTask S pid0 with
    | none =>
      rw [hfind] at hok
      exact absurd hok (by simp)
    | some P0 =>
      simp only [hfind] at hok
      by_cases hall : (!isParentStatusAllowed P0.status) = true
      · rw [if_pos hall] at hok
        exact absurd hok (by simp)
      rw [if_neg hall] at hok
      simp only [Except.ok.injEq] at hok
      subst hok
      refine ⟨?_, ?_, ?_⟩
      · cases hr : P0.rootTaskId <;> simp [hr]
      · intro h0
        exact absurd h0 (by simp)
      · intro pid P hpid hfindP r hroot
        have hpe : pid0 = pid := Option.some.inj hpid
        subst hpe
        rw [hfind] at hfindP
        have hPe : P0 = P := Option.some.inj hfindP
        subst hPe
        simp [hroot]

/-- C8 witness: creating a root task in the empty store at id 5 yields
root_task_id equal to the task's own id. -/
theorem c8_witness :
    (CreateTaskHandler [] "c" c8req 5 0).2 = Except.ok c8t ∧
    c8t.rootTaskId ≠ none ∧ c8t.rootTaskId = some c8t.id ∧
    c8t ∈ (CreateTaskHandler [] "c" c8req 5 0).1 := by
  have h := c8_root_task_id [] "c" c8req 5 0 c8t rfl
  obtain ⟨hid, hroot, hmem⟩ := h.2.1 rfl
  exact ⟨rfl, h.1, by rw [hroot, hid], hmem⟩

end AgentTaskManager

namespace AgentTaskManager

theorem minById_mem : ∀ (l : List Task) (c : Task), minById c l ∈ c :: l := by
  intro l
  induction l with
  | nil =>
    intro c
    exact List.mem_cons_self c []
  | cons d l ih =>
    intro c
    unfold minById at *
    simp only [List.foldl_cons]
    by_cases h : d.id < c.id
    · rw [if_pos h]
      rcases List.mem_cons.1 (ih d) with h1 | h1
      · rw [h1]
        exact List.mem_cons_of_mem c (List.mem_cons_self d l)
      · exact List.mem_cons_of_mem c (List.mem_cons_of_mem d h1)
    · rw [if_neg h]
      rcases List.mem_cons.1 (ih c) with h1 | h1
      · rw [h1]
        exact List.mem_cons_self c (d :: l)
      · exact List.mem_cons_of_mem c (List.mem_cons_of_mem d h1)

theorem minById_le : ∀ (l : List Task) (c : Task), ∀ x ∈ c :: l,
    (minById c l).id ≤ x.id := by
  intro l
  induction l with
  | nil =>
    intro c x hx
    rcases List.mem_cons.1 hx with h | h
    · rw [h]
      exact Nat.le_refl _
    · cases h
  | cons d l ih =>
    intro c x hx
    unfold minById at *
    simp only [List.foldl_cons]
    have hacc : (List.foldl (fun acc t => if t.id < acc.id then t else acc)
        (if d.id < c.id then d else c) l).id ≤ (if d.id < c.id then d else c).id :=
      ih (if d.id < c.id then d else c) (if d.id < c.id then d else c)
        (List.mem_cons_self _ _)
    rcases List.mem_cons.1 hx with h | h
    · subst h
      by_cases hd : d.id < x.id
      · rw [if_pos hd] at hacc ⊢
        omega
      · rw [if_neg hd] at hacc ⊢
        exact hacc
    rcases List.mem_cons.1 h with h1 | h1
    · subst h1
      by_cases hd : x.id < c.id
      · rw [if_pos hd] at hacc ⊢
        exact hacc
      · rw [if_neg hd] at hacc ⊢
        omega
    · exact ih (if d.id < c.id then d else c) x (List.mem_cons_of_mem _ h1)

/-- C2 (amended): a successful claim (GET /task) picks, among the
caller's submitted tasks, the row with the least primary key (GORM's
First orders by id, which for the service's random UUID keys is
unrelated to created_at), sets it to working and saves only that row. -/
theorem c2_claim_takes_least_id (S : Store) (u : String) (t' : Task)
    (hok : (GetTaskHandler S u).2 = Except.ok t') :
    t'.status = TaskStatus.working ∧ t'.assignee = u ∧
    (GetTaskHandler S u).1 = saveTask S t' ∧
    (∃ t0, t0 ∈ S ∧ t0.id = t'.id ∧ t0.status = TaskStatus.submitted ∧
      t0.assignee = u ∧ t' = { t0 with status := TaskStatus.working }) ∧
    (∀ c, c ∈ S → c.assignee = u → c.status = TaskStatus.submitted → t'.id ≤ c.id) := by
  unfold GetTaskHandler at hok ⊢
  cases hflt : S.filter (fun t => t.assignee == u && decide (t.status = TaskStatus.submitted)) with
  | nil =>
    rw [hflt] at hok
    exact absurd hok (by simp)
  | cons c rest =>
    simp only [hflt] at hok ⊢
    simp only [Except.ok.injEq] at hok
    subst hok
    have hmin : minById c rest ∈ c :: rest := minById_mem rest c
    have hminS : minById c rest ∈ S ∧
        ((minById c rest).assignee == u &&
          decide ((minById c rest).status = TaskStatus.submitted)) = true := by
      have := hmin
      rw [← hflt] at this
      exact List.mem_filter.1 this
    have hasg : (minById c rest).assignee = u := by
      have := (Bool.and_eq_true _ _ ▸ hminS.2).1
      simpa using this
    have hsub : (minById c rest).status = TaskStatus.submitted := by
      have := (Bool.and_eq_true _ _ ▸ hminS.2).2
      simpa using this
    refine ⟨rfl, hasg, rfl, ⟨minById c rest, hminS.1, rfl, hsub, hasg, rfl⟩, ?_⟩
    intro d hd hdasg hdsub
    have hdmem : d ∈ c :: rest := by
      rw [← hflt]
      refine List.mem_filter.2 ⟨hd, ?_⟩
      simp [hdasg, hdsub]
    exact minById_le rest c d hdmem

/-- C2 counterexample: with two submitted tasks for the same actor, the
claim returns the row with the smaller primary key even though the
other row was created earlier, contradicting earliest-created_at-first
selection. -/
theorem c2_counterexample :
    (GetTaskHandler c2xS "u").2 =
      Except.ok { mkTask 3 1 none "c" "u" (some 3) none .submitted with
        status := TaskStatus.working } ∧
    (∃ t0, t0 ∈ c2xS ∧ t0.assignee = "u" ∧ t0.status = TaskStatus.submitted ∧
      t0.createdAt <
        ({ mkTask 3 1 none "c" "u" (some 3) none .submitted with
          status := TaskStatus.working } : Task).createdAt) := by
  refine ⟨rfl, mkTask 5 0 none "c" "u" (some 5) none .submitted, by decide, rfl, rfl, by decide⟩

/-- C2 witness: the amended theorem applied at the concrete two-task
store; the claimed task is the one with id 3. -/
theorem c2_witness :
    (GetTaskHandler c2xS "u").2 =
      Except.ok { mkTask 3 1 none "c" "u" (some 3) none .submitted with
        status := TaskStatus.working } ∧
    ({ mkTask 3 1 none "c" "u" (some 3) none .submitted with
        status := TaskStatus.working } : Task).status = TaskStatus.working ∧
    (GetTaskHandler c2xS "u").1 =
      saveTask c2xS { mkTask 3 1 none "c" "u" (some 3) none .submitted with
        status := TaskStatus.working } := by
  have h := c2_claim_takes_least_id c2xS "u"
    { mkTask 3 1 none "c" "u" (some 3) none .submitted with status := TaskStatus.working } rfl
  exact ⟨rfl, h.1, h.2.2.1⟩

end AgentTaskManager

namespace AgentTaskManager

theorem strip_id {a b : Task} (h : stripCredentials a = stripCredentials b) :
    a.id = b.id :=
  congrArg TaskWithoutCredentials.id h

theorem strip_createdBy {a b : Task} (h : stripCredentials a = stripCredentials b) :
    a.createdBy = b.createdBy :=
  congrArg TaskWithoutCredentials.createdBy h

theorem strip_rootTaskId {a b : Task} (h : stripCredentials a = stripCredentials b) :
    a.rootTaskId = b.rootTaskId :=
  congrArg TaskWithoutCredentials.rootTaskId h

theorem findTask_strip_congr {A B : Store} (rid : Nat)
    (h : List.Forall₂ (fun a b => stripCredentials a = stripCredentials b) A B) :
    (findTask A rid = none ∧ findTask B rid = none) ∨
    (∃ a b, findTask A rid = some a ∧ findTask B rid = some b ∧
      stripCredentials a = stripCredentials b) := by
  unfold findTask
  induction h with
  | nil =>
    left
    exact ⟨rfl, rfl⟩
  | @cons a b A' B' hab h ih =>
    by_cases hid : (a.id == rid) = true
    · right
      have hidb : (b.id == rid) = true := by
        rw [← strip_id hab]
        exact hid
      exact ⟨a, b,
        by rw [List.find?_cons_of_pos (p := fun (t : Task) => t.id == rid) _ hid],
        by rw [List.find?_cons_of_pos (p := fun (t : Task) => t.id == rid) _ hidb], hab⟩
    · have hidb : ¬(b.id == rid) = true := by
        rw [← strip_id hab]
        exact hid
      rw [List.find?_cons_of_neg (p := fun (t : Task) => t.id == rid) _ hid,
        List.find?_cons_of_neg (p := fun (t : Task) => t.id == rid) _ hidb]
      exact ih

theorem strip_map_filter_congr {A B : Store} (rid : Nat)
    (h : List.Forall₂ (fun a b => stripCredentials a = stripCredentials b) A B) :
    (A.filter (fun t => t.rootTaskId == some rid)).map stripCredentials =
    (B.filter (fun t => t.rootTaskId == some rid)).map stripCredentials := by
  induction h with
  | nil => rfl
  | @cons a b A' B' hab h ih =>
    by_cases hr : (a.rootTaskId == some rid) = true
    · have hrb : (b.rootTaskId == some rid) = true := by
        rw [← strip_rootTaskId hab]
        exact hr
      rw [List.filter_cons_of_pos (p := fun (t : Task) => t.rootTaskId == some rid) hr,
        List.filter_cons_of_pos (p := fun (t : Task) => t.rootTaskId == some rid) hrb]
      simp only [List.map_cons]
      rw [hab, ih]
    · have hrb : ¬(b.rootTaskId == some rid) = true := by
        rw [← strip_rootTaskId hab]
        exact hr
      rw [List.filter_cons_of_neg (p := fun (t : Task) => t.rootTaskId == some rid) hr,
        List.filter_cons_of_neg (p := fun (t : Task) => t.rootTaskId == some rid) hrb]
      exact ih

/-- C10: the GET /root-task/:id/tasks response is computed from the
credentials-free projection of each row, so it is identical on any two
stores that agree on everything except the credentials blobs; in
particular no credentials data can reach the response. -/
theorem c10_response_ignores_credentials (A B : Store) (u : String) (rid : Nat)
    (h : List.Forall₂ (fun a b => stripCredentials a = stripCredentials b) A B) :
    GetRootTasksHandler A u rid = GetRootTasksHandler B u rid := by
  unfold GetRootTasksHandler
  rcases findTask_strip_congr rid h with ⟨h1, h2⟩ | ⟨a, b, h1, h2, hab⟩
  · rw [h1, h2]
  · rw [h1, h2]
    simp only []
    rw [strip_createdBy hab]
    by_cases hc : b.createdBy ≠ u
    · rw [if_pos hc, if_pos hc]
    · rw [if_neg hc, if_neg hc]
      rw [strip_map_filter_congr rid h]

/-- C10 witness: two concrete one-row stores that differ exactly in the
credentials blob produce the same response. -/
theorem c10_witness :
    GetRootTasksHandler c10S1 "c" 1 = GetRootTasksHandler c10S2 "c" 1 ∧
    c10S1 ≠ c10S2 := by
  constructor
  · exact c10_response_ignores_credentials c10S1 c10S2 "c" 1
      (List.Forall₂.cons rfl List.Forall₂.nil)
  · decide

end AgentTaskManager

namespace AgentTaskManager

theorem dropOrphans_subset : ∀ (fuel : Nat) (S : Store) (t : Task),
    t ∈ dropOrphans fuel S → t ∈ S := by
  intro fuel
  induction fuel with
  | zero =>
    intro S t ht
    exact ht
  | succ fuel ih =>
    intro S t ht
    unfold dropOrphans at ht
    by_cases hlen : (S.filter (fun t =>
        refIntact (S.map (·.id)) t.parentTaskId &&
        refIntact (S.map (·.id)) t.rootTaskId)).length = S.length
    · rw [if_pos hlen] at ht
      exact ht
    · rw [if_neg hlen] at ht
      exact (List.mem_filter.1 (ih _ t ht)).1

theorem dropOrphans_keeps_roots : ∀ (fuel : Nat) (S : Store) (t : Task),
    t ∈ S → t.parentTaskId = none → t.rootTaskId = some t.id →
    t ∈ dropOrphans fuel S := by
  intro fuel
  induction fuel with
  | zero =>
    intro S t ht hp hr
    exact ht
  | succ fuel ih =>
    intro S t ht hp hr
    unfold dropOrphans
    by_cases hlen : (S.filter (fun t =>
        refIntact (S.map (·.id)) t.parentTaskId &&
        refIntact (S.map (·.id)) t.rootTaskId)).length = S.length
    · rw [if_pos hlen]
      exact ht
    · rw [if_neg hlen]
      refine ih _ t ?_ hp hr
      refine List.mem_filter.2 ⟨ht, ?_⟩
      rw [hp, hr]
      simp only [refIntact, Bool.true_and]
      have : t.id ∈ S.map (·.id) := List.mem_map.2 ⟨t, ht, rfl⟩
      exact List.elem_eq_true_of_mem this

theorem refIntact_exists {C : Store} {o : Option Nat} {p : Nat}
    (ho : o = some p) (h : refIntact (C.map (·.id)) o = true) :
    ∃ q, q ∈ C ∧ q.id = p := by
  subst ho
  unfold refIntact at h
  have h2 := List.mem_of_elem_eq_true h
  rcases List.mem_map.1 h2 with ⟨q, hq, hqid⟩
  exact ⟨q, hq, hqid⟩

theorem refIntact_of_forall {C : Store} {o : Option Nat}
    (h : ∀ p, o = some p → ∃ q, q ∈ C ∧ q.id = p) :
    refIntact (C.map (·.id)) o = true := by
  cases o with
  | none => rfl
  | some p =>
    rcases h p rfl with ⟨q, hq, hqid⟩
    unfold refIntact
    exact List.elem_eq_true_of_mem (List.mem_map.2 ⟨q, hq, hqid⟩)

theorem dropOrphans_fixpoint : ∀ (fuel : Nat) (C : Store), C.length ≤ fuel →
    ∀ t ∈ dropOrphans fuel C,
      (refIntact ((dropOrphans fuel C).map (·.id)) t.parentTaskId &&
        refIntact ((dropOrphans fuel C).map (·.id)) t.rootTaskId) = true := by
  intro fuel
  induction fuel with
  | zero =>
    intro C hlen t ht
    have hC : C = [] := List.eq_nil_of_length_eq_zero (Nat.le_zero.1 hlen)
    subst hC
    cases ht
  | succ fuel ih =>
    intro C hlen t ht
    unfold dropOrphans at ht ⊢
    by_cases hfix : (C.filter (fun t =>
        refIntact (C.map (·.id)) t.parentTaskId &&
        refIntact (C.map (·.id)) t.rootTaskId)).length = C.length
    · rw [if_pos hfix] at ht ⊢
      exact List.filter_length_eq_length.1 hfix t ht
    · rw [if_neg hfix] at ht ⊢
      refine ih _ ?_ t ht
      have hle := List.length_filter_le (fun t =>
        refIntact (C.map (·.id)) t.parentTaskId &&
        refIntact (C.map (·.id)) t.rootTaskId) C
      omega

theorem dropOrphans_keeps_supported : ∀ (fuel : Nat) (C X : Store),
    (∀ t, t ∈ X → t ∈ C) →
    (∀ t, t ∈ X → ∀ p, t.parentTaskId = some p → ∃ q, q ∈ X ∧ q.id = p) →
    (∀ t, t ∈ X → ∀ r, t.rootTaskId = some r → ∃ q, q ∈ X ∧ q.id = r) →
    ∀ t, t ∈ X → t ∈ dropOrphans fuel C := by
  intro fuel
  induction fuel with
  | zero =>
    intro C X hXC _ _ t ht
    exact hXC t ht
  | succ fuel ih =>
    intro C X hXC hXp hXr t ht
    unfold dropOrphans
    by_cases hfix : (C.filter (fun t =>
        refIntact (C.map (·.id)) t.parentTaskId &&
        refIntact (C.map (·.id)) t.rootTaskId)).length = C.length
    · rw [if_pos hfix]
      exact hXC t ht
    · rw [if_neg hfix]
      refine ih _ X ?_ hXp hXr t ht
      intro s hs
      refine List.mem_filter.2 ⟨hXC s hs, ?_⟩
      rw [Bool.and_eq_true]
      constructor
      · refine refIntact_of_forall ?_
        intro p hp
        rcases hXp s hs p hp with ⟨q, hq, hqid⟩
        exact ⟨q, hXC q hq, hqid⟩
      · refine refIntact_of_forall ?_
        intro r hr
        rcases hXr s hs r hr with ⟨q, hq, hqid⟩
        exact ⟨q, hXC q hq, hqid⟩

theorem cleanup_subset (S : Store) (now : Nat) :
    ∀ t, t ∈ cleanupExpiredTasks S now → t ∈ S := by
  intro t ht
  unfold cleanupExpiredTasks at ht
  by_cases h0 : S.countP (isExpired now) = 0
  · rw [if_pos h0] at ht
    exact ht
  · rw [if_neg h0] at ht
    exact (List.mem_filter.1 (dropOrphans_subset _ _ t ht)).1

theorem cleanup_fixpoint (S : Store) (now : Nat)
    (h0 : ¬ S.countP (isExpired now) = 0) :
    ∀ t, t ∈ cleanupExpiredTasks S now →
      (refIntact ((cleanupExpiredTasks S now).map (·.id)) t.parentTaskId &&
        refIntact ((cleanupExpiredTasks S now).map (·.id)) t.rootTaskId) = true := by
  intro t ht
  unfold cleanupExpiredTasks at ht ⊢
  rw [if_neg h0] at ht ⊢
  exact dropOrphans_fixpoint S.length _ (List.length_filter_le _ _) t ht

theorem cleanup_ref_resolves (S : Store) (now : Nat) (hnd : NodupIds S) :
    ∀ (t : Task) (d : Nat), RefReach S t d → t ∈ cleanupExpiredTasks S now →
      ∀ q, q ∈ S → q.id = d → q ∈ cleanupExpiredTasks S now := by
  intro t d hreach
  induction hreach with
  | parent t p hp =>
    intro htR q hqS hqid
    by_cases h0 : S.countP (isExpired now) = 0
    · have hR : cleanupExpiredTasks S now = S := by
        unfold cleanupExpiredTasks
        rw [if_pos h0]
      rw [hR]
      exact hqS
    · have hfp := cleanup_fixpoint S now h0 t htR
      have h1 := (Bool.and_eq_true _ _ ▸ hfp).1
      rcases refIntact_exists hp h1 with ⟨q', hq'R, hq'id⟩
      have hq'S : q' ∈ S := cleanup_subset S now q' hq'R
      have hqq' : q = q' := id_inj_of_nodup hnd hqS hq'S (by rw [hqid, hq'id])
      rw [hqq']
      exact hq'R
  | root t r hr =>
    intro htR q hqS hqid
    by_cases h0 : S.countP (isExpired now) = 0
    · have hR : cleanupExpiredTasks S now = S := by
        unfold cleanupExpiredTasks
        rw [if_pos h0]
      rw [hR]
      exact hqS
    · have hfp := cleanup_fixpoint S now h0 t htR
      have h1 := (Bool.and_eq_true _ _ ▸ hfp).2
      rcases refIntact_exists hr h1 with ⟨q', hq'R, hq'id⟩
      have hq'S : q' ∈ S := cleanup_subset S now q' hq'R
      have hqq' : q = q' := id_inj_of_nodup hnd hqS hq'S (by rw [hqid, hq'id])
      rw [hqq']
      exact hq'R
  | step t q x h1 hqS h2 ih1 ih2 =>
    intro htR q2 hq2S hq2id
    have hqR : q ∈ cleanupExpiredTasks S now := ih1 htR q hqS rfl
    exact ih2 hqR q2 hq2S hq2id

/-- C7 (amended): a sweep at time now with no candidate (no task whose
non-null delete_at is earlier than now) is a no-op; otherwise the
surviving store is a subset of non-expired rows of the input — every
expired task is deleted — and the ON DELETE CASCADE foreign keys on
parent_task_id and root_task_id determine exactly which live rows go
with them: any family of non-expired rows whose parent and root
references all resolve within the family survives in full, while any
task whose chain of parent or root references reaches a deleted row is
deleted even when its own delete_at is null or in the future. -/
theorem c7_sweeper (S : Store) (now : Nat) (hnd : NodupIds S) :
    (S.countP (isExpired now) = 0 → cleanupExpiredTasks S now = S) ∧
    (∀ t, t ∈ cleanupExpiredTasks S now → isExpired now t = false) ∧
    (∀ t, t ∈ cleanupExpiredTasks S now → t ∈ S) ∧
    (∀ X : Store, (∀ t, t ∈ X → t ∈ S) → (∀ t, t ∈ X → isExpired now t = false) →
      (∀ t, t ∈ X → ∀ p, t.parentTaskId = some p → ∃ q, q ∈ X ∧ q.id = p) →
      (∀ t, t ∈ X → ∀ r, t.rootTaskId = some r → ∃ q, q ∈ X ∧ q.id = r) →
      ∀ t, t ∈ X → t ∈ cleanupExpiredTasks S now) ∧
    (∀ t, t ∈ S → ∀ d, RefReach S t d →
      ∀ q, q ∈ S → q.id = d → q ∉ cleanupExpiredTasks S now →
      t ∉ cleanupExpiredTasks S now) := by
  refine ⟨?_, ?_, ?_, ?_, ?_⟩
  · intro h0
    unfold cleanupExpiredTasks
    rw [if_pos h0]
  · intro t ht
    unfold cleanupExpiredTasks at ht
    by_cases h0 : S.countP (isExpired now) = 0
    · rw [if_pos h0] at ht
      have := List.countP_eq_zero.1 h0 t ht
      simpa using this
    · rw [if_neg h0] at ht
      have h1 := dropOrphans_subset _ _ t ht
      have h2 := (List.mem_filter.1 h1).2
      simpa using h2
  · exact cleanup_subset S now
  · intro X hXS hXexp hXp hXr t ht
    unfold cleanupExpiredTasks
    by_cases h0 : S.countP (isExpired now) = 0
    · rw [if_pos h0]
      exact hXS t ht
    · rw [if_neg h0]
      refine dropOrphans_keeps_supported S.length _ X ?_ hXp hXr t ht
      intro s hs
      refine List.mem_filter.2 ⟨hXS s hs, ?_⟩
      rw [hXexp s hs]
      rfl
  · intro t htS d hreach q hqS hqid hqdel htR
    exact hqdel (cleanup_ref_resolves S now hnd t d hreach htR q hqS hqid)

/-- C7 counterexample: the sweep at time 50 deletes the child whose
delete_at (999) is in the future, because its parent (delete_at 10) is
expired and the storage-level cascade removes the whole subtree; this
contradicts the claim that no task with a future delete_at is ever
deleted. -/
theorem c7_counterexample :
    mkTask 2 1 (some 999) "c" "u" (some 1) (some 1) .submitted ∈ c7xS ∧
    isExpired 50 (mkTask 2 1 (some 999) "c" "u" (some 1) (some 1) .submitted) = false ∧
    cleanupExpiredTasks c7xS 50 = [] := by
  exact ⟨by decide, rfl, rfl⟩

/-- C7 witness: the sweeper theorem applied at two concrete stores:
the single live self-rooted task survives the no-candidate sweep as a
self-supporting family, and in the expired-root store the live child is
deleted because its parent reference reaches the deleted root. -/
theorem c7_witness :
    NodupIds c7wS ∧ NodupIds c7xS ∧
    List.countP (isExpired 50) c7wS = 0 ∧
    cleanupExpiredTasks c7wS 50 = c7wS ∧
    mkTask 1 0 (some 999) "c" "u" (some 1) none .submitted ∈
      cleanupExpiredTasks c7wS 50 ∧
    mkTask 2 1 (some 999) "c" "u" (some 1) (some 1) .submitted ∉
      cleanupExpiredTasks c7xS 50 := by
  refine ⟨by decide, by decide, rfl, ?_, ?_, ?_⟩
  · exact (c7_sweeper c7wS 50 (by decide)).1 rfl
  · refine (c7_sweeper c7wS 50 (by decide)).2.2.2.1 c7wS (fun t ht => ht) ?_ ?_ ?_
      (mkTask 1 0 (some 999) "c" "u" (some 1) none .submitted) (by decide)
    · intro t ht
      have hts := List.mem_singleton.1 ht
      subst hts
      rfl
    · intro t ht p hp
      have hts := List.mem_singleton.1 ht
      subst hts
      cases hp
    · intro t ht r hr
      have hts := List.mem_singleton.1 ht
      subst hts
      exact ⟨mkTask 1 0 (some 999) "c" "u" (some 1) none .submitted,
        List.mem_singleton_self _, Option.some.inj hr⟩
  · exact (c7_sweeper c7xS 50 (by decide)).2.2.2.2
      (mkTask 2 1 (some 999) "c" "u" (some 1) (some 1) .submitted) (by decide) 1
      (RefReach.parent (mkTask 2 1 (some 999) "c" "u" (some 1) (some 1) .submitted) 1 rfl)
      (mkTask 1 0 (some 10) "c" "u" (some 1) none .completed) (by decide) rfl
      (by decide)
end AgentTaskManager

namespace AgentTaskManager

theorem cascade_core (S : Store) (tid : Nat) (tNew : Task) (hnd : NodupIds S)
    (hWF : WF S) (T : Task) (hT : T ∈ S) (hTid : T.id = tid)
    (hid : tNew.id = T.id) (hpar : tNew.parentTaskId = T.parentTaskId)
    (hca : tNew.createdAt = T.createdAt) (hinact : isActive tNew.status = false) :
    ∀ x, ActiveChain S tid x →
      cancAll (cancelSubtasksRecursive (saveTask S tNew).length (saveTask S tNew) tid) x := by
  intro x hch
  have hskel : SameSkel S (saveTask S tNew) := sameSkel_saveTask hnd hT hid hpar hca
  have hnd1 : NodupIds (saveTask S tNew) := sameSkel_nodup hskel hnd
  have hch1 : ActiveChain (saveTask S tNew) tid x := by
    refine chain_saveTask_of_wf hnd hWF hT hid tid x hch ?_
    intro tp htp htpid
    have htpT : tp = T := id_inj_of_nodup hnd htp hT (htpid.trans hTid.symm)
    rw [htpT]
  have hpin1 : pidInactive (saveTask S tNew) tid := by
    intro q hq hqid
    have hq2 : q = tNew :=
      mem_saveTask_eq hq (hqid.trans (hTid.symm.trans hid.symm))
    rw [hq2]
    exact hinact
  exact cancel_rec_cancAll _ _ tid hnd1 (countActive_le_length _) hpin1 x hch1

theorem chain_ne_parent (S : Store) (tid pid x : Nat) (hnd : NodupIds S) (hWF : WF S)
    (T : Task) (hT : T ∈ S) (hTid : T.id = tid) (hpar : T.parentTaskId = some pid)
    (hch : ActiveChain S tid x) : x ≠ pid := by
  intro heq
  rcases hWF T hT pid hpar with ⟨q, hq, hqid, hqlt⟩
  have := chain_createdAt_lt hnd hWF tid x hch T hT hTid q hq (by rw [hqid, heq])
  omega

/-- C1 (amended): when completing or canceling a task commits, every
task reachable from it through a chain of parent-child edges whose
members are all in an active status (submitted, working, waiting) ends
up canceled in the committed store; an active descendant whose path
passes through a non-active task is not visited by the cascade and may
survive.  Hypotheses: primary keys are unique and every parent
reference points to an older existing row, as the service guarantees. -/
theorem c1_cascade_cancels_active_chains (S : Store) (u res : String) (tid : Nat)
    (dAt : Option Nat) (hnd : NodupIds S) (hwf : wellFormedB S = true) :
    (∀ t', (CompleteTaskHandler S u tid { description := res, deleteAt := dAt }).2 =
        Except.ok t' →
      ∀ x, ActiveChain S tid x →
        cancAll (CompleteTaskHandler S u tid { description := res, deleteAt := dAt }).1 x) ∧
    (∀ t', (CancelTaskHandler S u tid).2 = Except.ok t' →
      ∀ x, ActiveChain S tid x → cancAll (CancelTaskHandler S u tid).1 x) := by
  have hWF := wf_iff.1 hwf
  constructor
  · intro t' hok x hch
    unfold CompleteTaskHandler at hok ⊢
    cases hfind : findTask S tid with
    | none =>
      rw [hfind] at hok
      exact absurd hok (by simp)
    | some T =>
      have hTmem := (findTask_mem_id hfind).1
      have hTid := (findTask_mem_id hfind).2
      simp only [hfind] at hok ⊢
      by_cases h1 : T.assignee ≠ u
      · rw [if_pos h1] at hok
        exact absurd hok (by simp)
      rw [if_neg h1] at hok ⊢
      by_cases h2 : T.status ≠ TaskStatus.working
      · rw [if_pos h2] at hok
        exact absurd hok (by simp)
      rw [if_neg h2] at hok ⊢
      rw [hTid] at hok ⊢
      have hcanc2 := cascade_core S tid
        (completedTask T { description := res, deleteAt := dAt })
        hnd hWF T hTmem hTid rfl rfl rfl rfl x hch
      cases hpar : T.parentTaskId with
      | none =>
        simp only [hpar] at hok ⊢
        exact hcanc2
      | some pid =>
        simp only [hpar] at hok ⊢
        split
        · exact cancAll_updateStatus hcanc2
            (chain_ne_parent S tid pid x hnd hWF T hTmem hTid hpar hch)
        · exact hcanc2
  · intro t' hok x hch
    unfold CancelTaskHandler at hok ⊢
    cases hfind : findTask S tid with
    | none =>
      rw [hfind] at hok
      exact absurd hok (by simp)
    | some T =>
      have hTmem := (findTask_mem_id hfind).1
      have hTid := (findTask_mem_id hfind).2
      simp only [hfind] at hok ⊢
      by_cases h1 : T.assignee ≠ u ∧ T.createdBy ≠ u
      · rw [if_pos h1] at hok
        exact absurd hok (by simp)
      rw [if_neg h1] at hok ⊢
      by_cases h2 : T.status = TaskStatus.completed ∨ T.status = TaskStatus.canceled ∨
          T.status = TaskStatus.failed
      · rw [if_pos h2] at hok
        exact absurd hok (by simp)
      rw [if_neg h2] at hok ⊢
      rw [hTid] at hok ⊢
      have hcanc2 := cascade_core S tid (canceledTask T)
        hnd hWF T hTmem hTid rfl rfl rfl rfl x hch
      cases hpar : T.parentTaskId with
      | none =>
        simp only [hpar] at hok ⊢
        exact hcanc2
      | some pid =>
        simp only [hpar] at hok ⊢
        by_cases hcond : rollupCond
            (CancelSubtasksRecursive (saveTask S (canceledTask T)).length
              (saveTask S (canceledTask T)) tid) pid
        · rw [if_pos hcond] at hok ⊢
          cases hfp : findTask
              (CancelSubtasksRecursive (saveTask S (canceledTask T)).length
                (saveTask S (canceledTask T)) tid) pid with
          | none =>
            rw [hfp] at hok
            exact absurd hok (by simp)
          | some w =>
            simp only [hfp] at hok ⊢
            exact cancAll_updateStatus hcanc2
              (chain_ne_parent S tid pid x hnd hWF T hTmem hTid hpar hch)
        · rw [if_neg hcond] at hok ⊢
          exact hcanc2

end AgentTaskManager

namespace AgentTaskManager

/-- C1 counterexample: in the store with working task 1, failed child 2
and submitted grandchild 3, task 3 is an active descendant of task 1 at
depth two, yet after completing task 1 it is still submitted: the
cascade never descends through the failed child, so not every active
descendant becomes canceled. -/
theorem c1_counterexample :
    Desc c1xS 1 3 ∧
    (∃ t, t ∈ c1xS ∧ t.id = 3 ∧ isActive t.status = true) ∧
    (CompleteTaskHandler c1xS "u" 1 c1req).2 =
      Except.ok (completedTask (mkTask 1 0 none "c" "u" (some 1) none .working) c1req) ∧
    mkTask 3 2 none "c" "u" (some 1) (some 2) .submitted ∈
      (CompleteTaskHandler c1xS "u" 1 c1req).1 ∧
    (mkTask 3 2 none "c" "u" (some 1) (some 2) .submitted).status =
      TaskStatus.submitted := by
  refine ⟨?_, ?_, rfl, by decide, rfl⟩
  · exact Desc.cons (mkTask 2 1 none "c" "u" (some 1) (some 1) .failed) 1 3
      (by decide) rfl
      (Desc.base (mkTask 3 2 none "c" "u" (some 1) (some 2) .submitted) 2 (by decide) rfl)
  · exact ⟨mkTask 3 2 none "c" "u" (some 1) (some 2) .submitted, by decide, rfl, rfl⟩

/-- C1 witness: completing (or canceling) the working root of the
two-task store cancels its submitted child, reached through an active
chain of length one. -/
theorem c1_witness :
    NodupIds c1wS ∧ wellFormedB c1wS = true ∧
    cancAll (CompleteTaskHandler c1wS "u" 1 c1req).1 2 ∧
    cancAll (CancelTaskHandler c1wS "u" 1).1 2 := by
  refine ⟨by decide, rfl, ?_, ?_⟩
  · exact (c1_cascade_cancels_active_chains c1wS "u" "r" 1 none (by decide) rfl).1
      (completedTask (mkTask 1 0 none "c" "u" (some 1) none .working) c1req) rfl 2
      (ActiveChain.base (mkTask 2 1 none "c" "v" (some 1) (some 1) .submitted) 1
        (by decide) rfl rfl)
  · exact (c1_cascade_cancels_active_chains c1wS "u" "r" 1 none (by decide) rfl).2
      (canceledTask (mkTask 1 0 none "c" "u" (some 1) none .working)) rfl 2
      (ActiveChain.base (mkTask 2 1 none "c" "v" (some 1) (some 1) .submitted) 1
        (by decide) rfl rfl)

end AgentTaskManager

namespace AgentTaskManager

theorem rollup_core (S : Store) (tid pid : Nat) (tNew : Task) (hnd : NodupIds S)
    (hWF : WF S) (T : Task) (hT : T ∈ S) (hTid : T.id = tid)
    (hid : tNew.id = T.id) (hpar : tNew.parentTaskId = T.parentTaskId)
    (hca : tNew.createdAt = T.createdAt) (hppid : T.parentTaskId = some pid) :
    (rollupCond (cancelSubtasksRecursive (saveTask S tNew).length (saveTask S tNew) tid)
        pid ↔ rollupCond (saveTask S tNew) pid) ∧
    (∀ q, q ∈ cancelSubtasksRecursive (saveTask S tNew).length (saveTask S tNew) tid →
      q.id = pid → ∀ q0, q0 ∈ S → q0.id = pid → q.status = q0.status) := by
  have hskel : SameSkel S (saveTask S tNew) := sameSkel_saveTask hnd hT hid hpar hca
  have hnd1 : NodupIds (saveTask S tNew) := sameSkel_nodup hskel hnd
  have hwf1 : WF (saveTask S tNew) := SameSkel.wf hskel hWF
  have htNmem : tNew ∈ saveTask S tNew := self_mem_saveTask hT hid.symm
  have htNid : tNew.id = tid := hid.trans hTid
  have htNpar : tNew.parentTaskId = some pid := hpar.trans hppid
  constructor
  · unfold rollupCond
    rw [countSiblings_evolve_eq (evolve_cancel_rec _ _ tid hnd1) pid,
      countDone_cascade_eq (saveTask S tNew) tid pid _ hnd1 hwf1 tNew htNmem htNid htNpar]
  · intro q hq hqid q0 hq0 hq0id
    have hnochain : ¬ ActiveChain (saveTask S tNew) tid q.id := by
      rw [hqid]
      exact no_chain_to_parent hnd1 hwf1 htNmem htNid htNpar
    have hqS1 : q ∈ saveTask S tNew := cascade_row_mem_of_no_chain hnd1 hq hnochain
    have hpidne : pid ≠ tid := by
      have h := parent_ne_self hnd hWF hT hppid
      rw [hTid] at h
      exact h
    have hqS : q ∈ S := mem_saveTask_src hqS1 (by rw [hqid, htNid]; exact hpidne)
    have hqq0 : q = q0 := id_inj_of_nodup hnd hqS hq0 (hqid.trans hq0id.symm)
    rw [hqq0]

/-- C3: when completing or canceling a task that has a parent commits,
the parent is set to submitted exactly when, in the store right after
the task's own transition, the number of tasks sharing the parent is
positive and equals the number of them in completed or canceled;
otherwise every row carrying the parent's id keeps the status it had
before the operation.  The handlers evaluate the counts after the
descendant cascade, but under unique ids and older-parent
well-formedness the cascade can touch neither the parent nor any
sibling, so the counts agree with the after-own-transition counts the
claim specifies. -/
theorem c3_parent_rollup (S : Store) (u : String) (req : CompleteTaskRequest)
    (T : Task) (pid : Nat) (hnd : NodupIds S) (hwf : wellFormedB S = true)
    (hT : T ∈ S) (hp : T.parentTaskId = some pid) :
    (∀ t', (CompleteTaskHandler S u T.id req).2 = Except.ok t' →
      (rollupCond (saveTask S (completedTask T req)) pid →
        ∀ q, q ∈ (CompleteTaskHandler S u T.id req).1 → q.id = pid →
          q.status = TaskStatus.submitted) ∧
      (¬ rollupCond (saveTask S (completedTask T req)) pid →
        ∀ q, q ∈ (CompleteTaskHandler S u T.id req).1 → q.id = pid →
          ∀ q0, q0 ∈ S → q0.id = pid → q.status = q0.status)) ∧
    (∀ t', (CancelTaskHandler S u T.id).2 = Except.ok t' →
      (rollupCond (saveTask S (canceledTask T)) pid →
        ∀ q, q ∈ (CancelTaskHandler S u T.id).1 → q.id = pid →
          q.status = TaskStatus.submitted) ∧
      (¬ rollupCond (saveTask S (canceledTask T)) pid →
        ∀ q, q ∈ (CancelTaskHandler S u T.id).1 → q.id = pid →
          ∀ q0, q0 ∈ S → q0.id = pid → q.status = q0.status)) := by
  have hWF := wf_iff.1 hwf
  constructor
  · intro t' hok
    unfold CompleteTaskHandler at hok ⊢
    simp only [findTask_eq_some hnd hT] at hok ⊢
    by_cases h1 : T.assignee ≠ u
    · rw [if_pos h1] at hok
      exact absurd hok (by simp)
    rw [if_neg h1] at hok ⊢
    by_cases h2 : T.status ≠ TaskStatus.working
    · rw [if_pos h2] at hok
      exact absurd hok (by simp)
    rw [if_neg h2] at hok ⊢
    simp only [hp] at hok ⊢
    have hcore := rollup_core S T.id pid (completedTask T req) hnd hWF T hT rfl rfl rfl rfl hp
    constructor
    · intro hcond q hq hqid
      rw [if_pos (hcore.1.2 hcond)] at hq
      exact updateStatus_sets hq hqid
    · intro hcond q hq hqid q0 hq0 hq0id
      rw [if_neg (fun hc => hcond (hcore.1.1 hc))] at hq
      exact hcore.2 q hq hqid q0 hq0 hq0id
  · intro t' hok
    unfold CancelTaskHandler at hok ⊢
    simp only [findTask_eq_some hnd hT] at hok ⊢
    by_cases h1 : T.assignee ≠ u ∧ T.createdBy ≠ u
    · rw [if_pos h1] at hok
      exact absurd hok (by simp)
    rw [if_neg h1] at hok ⊢
    by_cases h2 : T.status = TaskStatus.completed ∨ T.status = TaskStatus.canceled ∨
        T.status = TaskStatus.failed
    · rw [if_pos h2] at hok
      exact absurd hok (by simp)
    rw [if_neg h2] at hok ⊢
    simp only [hp] at hok ⊢
    have hcore := rollup_core S T.id pid (canceledTask T) hnd hWF T hT rfl rfl rfl rfl hp
    have hiff : rollupCond
        (CancelSubtasksRecursive (saveTask S (canceledTask T)).length
          (saveTask S (canceledTask T)) T.id) pid ↔
        rollupCond (saveTask S (canceledTask T)) pid := hcore.1
    have hpres : ∀ q, q ∈ CancelSubtasksRecursive (saveTask S (canceledTask T)).length
          (saveTask S (canceledTask T)) T.id →
        q.id = pid → ∀ q0, q0 ∈ S → q0.id = pid → q.status = q0.status := hcore.2
    constructor
    · intro hcond q hq hqid
      rw [if_pos (hiff.2 hcond)] at hok hq
      cases hfp : findTask (CancelSubtasksRecursive (saveTask S (canceledTask T)).length
          (saveTask S (canceledTask T)) T.id) pid with
      | none =>
        rw [hfp] at hok
        exact absurd hok (by simp)
      | some w =>
        rw [hfp] at hq
        exact updateStatus_sets hq hqid
    · intro hcond q hq hqid q0 hq0 hq0id
      rw [if_neg (fun hc => hcond (hiff.1 hc))] at hq
      exact hpres q hq hqid q0 hq0 hq0id

end AgentTaskManager

namespace AgentTaskManager

/-- C3 witness: with a parent of three children, completing one while
another is still working leaves the parent in waiting (two of three
siblings done), and completing the last outstanding child of the second
store sets the parent to submitted (three of three done). -/
theorem c3_witness :
    NodupIds c3S ∧ wellFormedB c3S = true ∧ NodupIds c3S2 ∧ wellFormedB c3S2 = true ∧
    (¬ rollupCond (saveTask c3S
      (completedTask (mkTask 12 2 none "c" "u" (some 10) (some 10) .working) c1req)) 10) ∧
    rollupCond (saveTask c3S2
      (completedTask (mkTask 13 3 none "c" "u2" (some 10) (some 10) .working) c1req)) 10 ∧
    mkTask 10 0 none "c" "w" (some 10) none .waiting ∈
      (CompleteTaskHandler c3S "u" 12 c1req).1 ∧
    mkTask 10 0 none "c" "w" (some 10) none .submitted ∈
      (CompleteTaskHandler c3S2 "u2" 13 c1req).1 ∧
    (mkTask 10 0 none "c" "w" (some 10) none .waiting).status = TaskStatus.waiting ∧
    (mkTask 10 0 none "c" "w" (some 10) none .submitted).status =
      TaskStatus.submitted := by
  refine ⟨by decide, rfl, by decide, rfl, by decide, by decide, by decide, by decide,
    ?_, ?_⟩
  · exact (((c3_parent_rollup c3S "u" c1req
      (mkTask 12 2 none "c" "u" (some 10) (some 10) .working) 10
      (by decide) rfl (by decide) rfl).1
      (completedTask (mkTask 12 2 none "c" "u" (some 10) (some 10) .working) c1req)
      rfl).2 (by decide)
      (mkTask 10 0 none "c" "w" (some 10) none .waiting) (by decide) rfl
      (mkTask 10 0 none "c" "w" (some 10) none .waiting) (by decide) rfl).trans rfl
  · exact ((c3_parent_rollup c3S2 "u2" c1req
      (mkTask 13 3 none "c" "u2" (some 10) (some 10) .working) 10
      (by decide) rfl (by decide) rfl).1
      (completedTask (mkTask 13 3 none "c" "u2" (some 10) (some 10) .working) c1req)
      rfl).1 (by decide)
      (mkTask 10 0 none "c" "w" (some 10) none .submitted) (by decide) rfl

end AgentTaskManager
